import Mathlib

/-!
# Verification of the asynchronous job-orchestration and progress-streaming subsystem

This development embeds the job-orchestration core of the repository
(training-task submission, queueing, worker claim, progress recording,
cancellation and live-progress observation) together with the two
React components that are present in the source tree
(`frontend/src/components/TrainingForm.jsx` and
`frontend/src/components/TrainingMonitor.jsx`).

The backend service code itself (FastAPI routers, `TrainingService`,
RQ worker) is not part of the checked-in sources; only its design
documentation (`DEVELOPMENT.md`) and its HTTP/WebSocket clients are.
Definitions for that part are therefore modelled from the specification
and are marked `Modelled from the spec:` in their doc comments.
The frontend components are embedded directly from the JSX source.
-/

set_option autoImplicit false

namespace JobOrch

/-! ## Job status state machine (spec section 4.2) -/

/-- Modelled from the spec: the five Job statuses of the Job state
machine `Pending -> Running -> (Completed | Failed | Stopped)`. -/
inductive JobStatus where
  | pending
  | running
  | completed
  | failed
  | stopped
deriving DecidableEq, Repr

/-- The statuses `Completed`, `Failed` and `Stopped` are the terminal states;
`Pending` and `Running` are the only non-terminal states. -/
def JobStatus.isTerminal : JobStatus → Bool
  | .completed => true
  | .failed => true
  | .stopped => true
  | .pending => false
  | .running => false

/-- Modelled from the spec: the progress percentage derived from the
epoch counters, `current_epoch / total_epochs * 100` clamped to the
interval `[0, 100]`. -/
def pct (e t : ℕ) : ℚ :=
  max 0 (min 100 ((e : ℚ) / (t : ℚ) * 100))

/-- Modelled from the spec: the durable Progress Record kept per Job:
status, epoch counters, derived progress percentage, the latest metric
snapshot (loss and mAP), the cooperative-cancellation flag, the terminal
result (model path) or failure reason, and the last-update timestamp. -/
structure JobRecord where
  status : JobStatus
  currentEpoch : ℕ
  totalEpochs : ℕ
  progress : ℚ
  lossMetric : Option ℚ
  mapMetric : Option ℚ
  cancelRequested : Bool
  modelPath : Option String
  errorMessage : Option String
  lastUpdate : ℕ
deriving DecidableEq, Repr

/-- Modelled from the spec: the initial Progress Record created by the
Job Coordinator at submission time (status `Pending`, epoch 0). -/
def initRecord (total now : ℕ) : JobRecord :=
  { status := .pending
    currentEpoch := 0
    totalEpochs := total
    progress := 0
    lossMetric := none
    mapMetric := none
    cancelRequested := false
    modelPath := none
    errorMessage := none
    lastUpdate := now }

/-- Modelled from the spec: the record mutation performed by a
cancellation request (spec sections 4.2 and 4.4): a `Pending` Job is
marked `Stopped` directly; a `Running` Job gets the cooperative
cancellation flag set; a terminal Job is left unchanged (idempotent
cancel). -/
def cancelUpd (r : JobRecord) : JobRecord :=
  if r.status = .pending then
    { r with status := .stopped, cancelRequested := true }
  else if r.status.isTerminal then r
  else { r with cancelRequested := true }

/-! ## Worker pool and whole-subsystem state -/

/-- Modelled from the spec: the state of one worker in the pool:
idle (blocked on dequeue), holding a dequeued job reference before the
claim, or executing the training routine at a given completed-epoch
count. -/
inductive WorkerState where
  | idle
  | holding
  | executing (epoch : ℕ)
deriving DecidableEq, Repr

/-- Modelled from the spec: the state of the orchestration subsystem
for one Job identifier: the Progress Record (absent before submission),
the number of queued deliveries of the job reference (at-least-once
delivery allows duplicates), the worker pool, the number of invocations
of the external training routine for this identifier, and a logical
clock. -/
structure Sys where
  record : Option JobRecord
  queued : ℕ
  workers : List WorkerState
  trainCalls : ℕ
  clock : ℕ
deriving DecidableEq, Repr

/-- The initial subsystem state with `n` idle workers and no record. -/
def initSys (n : ℕ) : Sys :=
  { record := none, queued := 0, workers := List.replicate n .idle
    trainCalls := 0, clock := 0 }

/-- The status of the Job as stored, if the record exists. -/
def jobStatus (s : Sys) : Option JobStatus :=
  s.record.map (·.status)

/-- Labels for the atomic events of the orchestration subsystem. -/
inductive Ev where
  | submit (total : ℕ)
  | redeliver
  | dequeue (w : ℕ)
  | claimOk (w : ℕ)
  | claimFail (w : ℕ)
  | progress (w : ℕ) (l m : ℚ)
  | complete (w : ℕ) (path : String)
  | failRun (w : ℕ) (msg : String)
  | observeCancel (w : ℕ)
  | crash (w : ℕ)
  | cancel
  | tick
deriving DecidableEq, Repr

/-- Modelled from the spec: the small-step transition relation of the
orchestration subsystem (spec sections 4.1 to 4.4).

* `submit`: the Coordinator creates the Progress Record with status
  `Pending` and enqueues the job reference.
* `redeliver`: at-least-once queue delivery may enqueue a duplicate
  reference for an already-created Job.
* `dequeue`: an idle worker takes one queued reference.
* `claimOk` / `claimFail`: the atomic conditional claim (`Pending` to
  `Running`, succeeds only if the current status is `Pending`); on
  success the worker invokes the external training routine, on failure
  it discards the reference and returns to dequeuing without mutating
  the record.
* `progress`: the training callback for the next epoch updates epoch
  counters, derived progress, latest metrics and the last-update
  timestamp.
* `complete` / `failRun`: the worker finalises the Job as `Completed`
  with the output artifact location, or as `Failed` with the captured
  message.
* `observeCancel`: the worker observes the cancellation flag at an
  epoch boundary and finalises as `Stopped`.
* `crash`: the worker process dies without touching the record.  No
  reconciliation or staleness event exists: this matches the documented known issue of the source (`DEVELOPMENT.md`, known issue 1: a worker
  abnormal exit does not update the task status).
* `cancel`: the Coordinator applies `cancelUpd` to the record.
* `tick`: the logical clock advances. -/
inductive Step : Sys → Ev → Sys → Prop where
  | submit {s : Sys} (total : ℕ) (h : s.record = none) :
      Step s (.submit total)
        { s with record := some (initRecord total s.clock), queued := s.queued + 1 }
  | redeliver {s : Sys} (h : s.record ≠ none) :
      Step s .redeliver { s with queued := s.queued + 1 }
  | dequeue {s : Sys} {w q : ℕ} (hw : s.workers[w]? = some .idle)
      (hq : s.queued = q + 1) :
      Step s (.dequeue w) { s with workers := s.workers.set w .holding, queued := q }
  | claimOk {s : Sys} {w : ℕ} {r : JobRecord}
      (hw : s.workers[w]? = some .holding) (hr : s.record = some r)
      (hp : r.status = .pending) :
      Step s (.claimOk w)
        { s with workers := s.workers.set w (.executing 0)
                 record := some { r with status := .running, lastUpdate := s.clock }
                 trainCalls := s.trainCalls + 1 }
  | claimFail {s : Sys} {w : ℕ} {r : JobRecord}
      (hw : s.workers[w]? = some .holding) (hr : s.record = some r)
      (hp : r.status ≠ .pending) :
      Step s (.claimFail w) { s with workers := s.workers.set w .idle }
  | progress {s : Sys} {w e : ℕ} {r : JobRecord} (l m : ℚ)
      (hw : s.workers[w]? = some (.executing e)) (hr : s.record = some r)
      (he : e < r.totalEpochs) :
      Step s (.progress w l m)
        { s with workers := s.workers.set w (.executing (e + 1))
                 record := some { r with currentEpoch := e + 1
                                         progress := pct (e + 1) r.totalEpochs
                                         lossMetric := some l
                                         mapMetric := some m
                                         lastUpdate := s.clock } }
  | complete {s : Sys} {w e : ℕ} {r : JobRecord} (path : String)
      (hw : s.workers[w]? = some (.executing e)) (hr : s.record = some r) :
      Step s (.complete w path)
        { s with workers := s.workers.set w .idle
                 record := some { r with status := .completed
                                         modelPath := some path
                                         lastUpdate := s.clock } }
  | failRun {s : Sys} {w e : ℕ} {r : JobRecord} (msg : String)
      (hw : s.workers[w]? = some (.executing e)) (hr : s.record = some r) :
      Step s (.failRun w msg)
        { s with workers := s.workers.set w .idle
                 record := some { r with status := .failed
                                         errorMessage := some msg
                                         lastUpdate := s.clock } }
  | observeCancel {s : Sys} {w e : ℕ} {r : JobRecord}
      (hw : s.workers[w]? = some (.executing e)) (hr : s.record = some r)
      (hc : r.cancelRequested = true) :
      Step s (.observeCancel w)
        { s with workers := s.workers.set w .idle
                 record := some { r with status := .stopped, lastUpdate := s.clock } }
  | crash {s : Sys} {w e : ℕ} (hw : s.workers[w]? = some (.executing e)) :
      Step s (.crash w) { s with workers := s.workers.set w .idle }
  | cancel {s : Sys} :
      Step s .cancel { s with record := s.record.map cancelUpd }
  | tick {s : Sys} :
      Step s .tick { s with clock := s.clock + 1 }

/-- One anonymous step. -/
def StepAny (s s' : Sys) : Prop := ∃ e, Step s e s'

/-- Zero or more steps. -/
def Reaches : Sys → Sys → Prop := Relation.ReflTransGen StepAny

/-- States reachable from the initial state with `n` workers. -/
def Reachable (n : ℕ) (s : Sys) : Prop := Reaches (initSys n) s

end JobOrch

namespace JobOrch

/-! ## Arithmetic facts about the derived progress percentage -/

theorem pct_zero (t : ℕ) : pct 0 t = 0 := by
  unfold pct
  norm_num

theorem pct_nonneg (e t : ℕ) : 0 ≤ pct e t :=
  le_max_left 0 _

theorem pct_le_100 (e t : ℕ) : pct e t ≤ 100 :=
  max_le (by norm_num) (min_le_left _ _)

theorem pct_mono {e e' : ℕ} (t : ℕ) (h : e ≤ e') : pct e t ≤ pct e' t := by
  unfold pct
  apply max_le_max le_rfl
  apply min_le_min le_rfl
  have h1 : (e : ℚ) ≤ (e' : ℚ) := by exact_mod_cast h
  have h2 : (0 : ℚ) ≤ (t : ℚ) := by positivity
  exact mul_le_mul_of_nonneg_right (div_le_div_of_nonneg_right h1 h2) (by norm_num)


/-! ## The reachability invariant of the subsystem -/

theorem lookup_set {l : List WorkerState} {w j : ℕ} {x y old : WorkerState}
    (hw : l[w]? = some old) (h : (l.set w x)[j]? = some y) :
    (j = w ∧ y = x) ∨ (j ≠ w ∧ l[j]? = some y) := by
  by_cases hj : j = w
  · subst hj
    rw [List.getElem?_set_eq_of_lt x (List.getElem?_eq_some.mp hw).fst] at h
    exact Or.inl ⟨rfl, (Option.some.inj h).symm⟩
  · rw [List.getElem?_set_ne (Ne.symm hj)] at h
    exact Or.inr ⟨hj, h⟩

theorem lookup_set_self {l : List WorkerState} {w : ℕ} {x old : WorkerState}
    (hw : l[w]? = some old) : (l.set w x)[w]? = some x :=
  List.getElem?_set_eq_of_lt x (List.getElem?_eq_some.mp hw).fst

theorem cancelUpd_fields (r : JobRecord) :
    (cancelUpd r).progress = r.progress ∧ (cancelUpd r).currentEpoch = r.currentEpoch ∧
    (cancelUpd r).totalEpochs = r.totalEpochs := by
  unfold cancelUpd
  split_ifs <;> exact ⟨rfl, rfl, rfl⟩

theorem cancelUpd_not_pending (r : JobRecord) :
    ¬ (cancelUpd r).status = JobStatus.pending := by
  unfold cancelUpd
  split_ifs with h₁ h₂
  · simp
  · intro h
    exact h₁ h
  · intro h
    exact h₁ h

/--
The inductive invariant of the orchestration subsystem:
* `uniqueExec`: at most one worker is executing;
* `execRecord`: an executing worker implies the record exists, is
  `Running`, and its epoch counter equals the count of the worker;
* `recordOk`: the stored progress equals the clamped derived
  percentage, the epoch counter never exceeds the total, and a
  `Pending` record still has epoch 0;
* `pendingNoCalls` / `noneNoCalls`: before the first successful claim
  the external training routine has never been invoked.
-/
structure SysInv (s : Sys) : Prop where
  uniqueExec : ∀ (w₁ w₂ e₁ e₂ : ℕ), s.workers[w₁]? = some (WorkerState.executing e₁) →
      s.workers[w₂]? = some (WorkerState.executing e₂) → w₁ = w₂
  execRecord : ∀ (w e : ℕ), s.workers[w]? = some (WorkerState.executing e) →
      ∃ r, s.record = some r ∧ r.status = JobStatus.running ∧ r.currentEpoch = e
  recordOk : ∀ r, s.record = some r →
      r.progress = pct r.currentEpoch r.totalEpochs ∧
      r.currentEpoch ≤ r.totalEpochs ∧
      (r.status = JobStatus.pending → r.currentEpoch = 0)
  pendingNoCalls : ∀ r, s.record = some r → r.status = JobStatus.pending → s.trainCalls = 0
  noneNoCalls : s.record = none → s.trainCalls = 0

theorem inv_init (n : ℕ) : SysInv (initSys n) := by
  refine ⟨?_, ?_, ?_, ?_, ?_⟩
  · intro w₁ w₂ e₁ e₂ h₁ h₂
    rw [initSys, List.getElem?_replicate] at h₁
    split at h₁ <;> simp_all
  · intro w e h
    rw [initSys, List.getElem?_replicate] at h
    split at h <;> simp_all
  · intro r hr
    simp [initSys] at hr
  · intro r hr
    simp [initSys] at hr
  · intro
    rfl

theorem inv_step {s s' : Sys} {e : Ev} (hs : SysInv s) (h : Step s e s') : SysInv s' := by
  obtain ⟨u, xr, rp, pnc, nnc⟩ := hs
  cases h with
  | submit total h =>
    refine ⟨u, ?_, ?_, ?_, ?_⟩
    · intro w ew hw
      obtain ⟨r, hr, -, -⟩ := xr w ew hw
      rw [h] at hr
      exact Option.noConfusion hr
    · intro r hr
      injection hr with hr
      subst hr
      simp [initRecord, pct_zero]
    · intro r hr hp
      exact nnc h
    · intro h'
      exact Option.noConfusion h'
  | redeliver h =>
    exact ⟨u, xr, rp, pnc, nnc⟩
  | dequeue hw hq =>
    refine ⟨?_, ?_, rp, pnc, nnc⟩
    · intro w₁ w₂ e₁ e₂ h₁ h₂
      rcases lookup_set hw h₁ with ⟨rfl, hx⟩ | ⟨ne₁, h₁'⟩
      · exact absurd hx (by simp)
      · rcases lookup_set hw h₂ with ⟨rfl, hx⟩ | ⟨ne₂, h₂'⟩
        · exact absurd hx (by simp)
        · exact u _ _ _ _ h₁' h₂'
    · intro w' e' h'
      rcases lookup_set hw h' with ⟨rfl, hx⟩ | ⟨ne, hww⟩
      · exact absurd hx (by simp)
      · exact xr w' e' hww
  | claimOk hw hr hp =>
    rename_i w r
    have noX : ∀ (w' e' : ℕ), ¬ s.workers[w']? = some (WorkerState.executing e') := by
      intro w' e' hx
      obtain ⟨r₀, hr₀, hstat, -⟩ := xr w' e' hx
      rw [hr] at hr₀
      injection hr₀ with hr₀
      subst hr₀
      rw [hp] at hstat
      exact JobStatus.noConfusion hstat
    refine ⟨?_, ?_, ?_, ?_, ?_⟩
    · intro w₁ w₂ e₁ e₂ h₁ h₂
      rcases lookup_set hw h₁ with ⟨rfl, -⟩ | ⟨ne₁, h₁'⟩
      · rcases lookup_set hw h₂ with ⟨rfl, -⟩ | ⟨ne₂, h₂'⟩
        · rfl
        · exact absurd h₂' (noX _ _)
      · exact absurd h₁' (noX _ _)
    · intro w' e' h'
      rcases lookup_set hw h' with ⟨rfl, hx⟩ | ⟨ne, hww⟩
      · have he' : e' = 0 := by injection hx
        subst he'
        exact ⟨_, rfl, rfl, (rp r hr).2.2 hp⟩
      · exact absurd hww (noX _ _)
    · intro r₂ hr₂
      injection hr₂ with hr₂
      subst hr₂
      obtain ⟨hprog, hle, -⟩ := rp r hr
      exact ⟨hprog, hle, by simp⟩
    · intro r₂ hr₂ hp₂
      injection hr₂ with hr₂
      subst hr₂
      simp at hp₂
    · intro h'
      exact Option.noConfusion h'
  | claimFail hw hr hp =>
    refine ⟨?_, ?_, rp, pnc, nnc⟩
    · intro w₁ w₂ e₁ e₂ h₁ h₂
      rcases lookup_set hw h₁ with ⟨rfl, hx⟩ | ⟨ne₁, h₁'⟩
      · exact absurd hx (by simp)
      · rcases lookup_set hw h₂ with ⟨rfl, hx⟩ | ⟨ne₂, h₂'⟩
        · exact absurd hx (by simp)
        · exact u _ _ _ _ h₁' h₂'
    · intro w' e' h'
      rcases lookup_set hw h' with ⟨rfl, hx⟩ | ⟨ne, hww⟩
      · exact absurd hx (by simp)
      · exact xr w' e' hww
  | progress l m hw hr he =>
    rename_i w ep r
    obtain ⟨r₀, hr₀, hrun, hep⟩ := xr _ _ hw
    rw [hr] at hr₀
    injection hr₀ with hr₀
    subst hr₀
    refine ⟨?_, ?_, ?_, ?_, ?_⟩
    · intro w₁ w₂ e₁ e₂ h₁ h₂
      rcases lookup_set hw h₁ with ⟨rfl, -⟩ | ⟨ne₁, h₁'⟩
      · rcases lookup_set hw h₂ with ⟨rfl, -⟩ | ⟨ne₂, h₂'⟩
        · rfl
        · exact absurd (u _ _ _ _ h₂' hw) ne₂
      · exact absurd (u _ _ _ _ h₁' hw) ne₁
    · intro w' e' h'
      rcases lookup_set hw h' with ⟨rfl, hx⟩ | ⟨ne, hww⟩
      · have he' : e' = ep + 1 := by injection hx
        subst he'
        exact ⟨_, rfl, hrun, rfl⟩
      · exact absurd (u _ _ _ _ hww hw) ne
    · intro r₂ hr₂
      injection hr₂ with hr₂
      subst hr₂
      refine ⟨rfl, he, ?_⟩
      intro hc
      rw [hrun] at hc
      exact JobStatus.noConfusion hc
    · intro r₂ hr₂ hp₂
      injection hr₂ with hr₂
      subst hr₂
      rw [hrun] at hp₂
      exact JobStatus.noConfusion hp₂
    · intro h'
      exact Option.noConfusion h'
  | complete path hw hr =>
    rename_i w ep r
    refine ⟨?_, ?_, ?_, ?_, ?_⟩
    · intro w₁ w₂ e₁ e₂ h₁ h₂
      rcases lookup_set hw h₁ with ⟨rfl, hx⟩ | ⟨ne₁, h₁'⟩
      · exact absurd hx (by simp)
      · rcases lookup_set hw h₂ with ⟨rfl, hx⟩ | ⟨ne₂, h₂'⟩
        · exact absurd hx (by simp)
        · exact u _ _ _ _ h₁' h₂'
    · intro w' e' h'
      rcases lookup_set hw h' with ⟨rfl, hx⟩ | ⟨ne, hww⟩
      · exact absurd hx (by simp)
      · exact absurd (u _ _ _ _ hww hw) ne
    · intro r₂ hr₂
      injection hr₂ with hr₂
      subst hr₂
      obtain ⟨hprog, hle, -⟩ := rp r hr
      exact ⟨hprog, hle, by simp⟩
    · intro r₂ hr₂ hp₂
      injection hr₂ with hr₂
      subst hr₂
      simp at hp₂
    · intro h'
      exact Option.noConfusion h'
  | failRun msg hw hr =>
    rename_i w ep r
    refine ⟨?_, ?_, ?_, ?_, ?_⟩
    · intro w₁ w₂ e₁ e₂ h₁ h₂
      rcases lookup_set hw h₁ with ⟨rfl, hx⟩ | ⟨ne₁, h₁'⟩
      · exact absurd hx (by simp)
      · rcases lookup_set hw h₂ with ⟨rfl, hx⟩ | ⟨ne₂, h₂'⟩
        · exact absurd hx (by simp)
        · exact u _ _ _ _ h₁' h₂'
    · intro w' e' h'
      rcases lookup_set hw h' with ⟨rfl, hx⟩ | ⟨ne, hww⟩
      · exact absurd hx (by simp)
      · exact absurd (u _ _ _ _ hww hw) ne
    · intro r₂ hr₂
      injection hr₂ with hr₂
      subst hr₂
      obtain ⟨hprog, hle, -⟩ := rp r hr
      exact ⟨hprog, hle, by simp⟩
    · intro r₂ hr₂ hp₂
      injection hr₂ with hr₂
      subst hr₂
      simp at hp₂
    · intro h'
      exact Option.noConfusion h'
  | observeCancel hw hr hc =>
    rename_i w ep r
    refine ⟨?_, ?_, ?_, ?_, ?_⟩
    · intro w₁ w₂ e₁ e₂ h₁ h₂
      rcases lookup_set hw h₁ with ⟨rfl, hx⟩ | ⟨ne₁, h₁'⟩
      · exact absurd hx (by simp)
      · rcases lookup_set hw h₂ with ⟨rfl, hx⟩ | ⟨ne₂, h₂'⟩
        · exact absurd hx (by simp)
        · exact u _ _ _ _ h₁' h₂'
    · intro w' e' h'
      rcases lookup_set hw h' with ⟨rfl, hx⟩ | ⟨ne, hww⟩
      · exact absurd hx (by simp)
      · exact absurd (u _ _ _ _ hww hw) ne
    · intro r₂ hr₂
      injection hr₂ with hr₂
      subst hr₂
      obtain ⟨hprog, hle, -⟩ := rp r hr
      exact ⟨hprog, hle, by simp⟩
    · intro r₂ hr₂ hp₂
      injection hr₂ with hr₂
      subst hr₂
      simp at hp₂
    · intro h'
      exact Option.noConfusion h'
  | crash hw =>
    refine ⟨?_, ?_, rp, pnc, nnc⟩
    · intro w₁ w₂ e₁ e₂ h₁ h₂
      rcases lookup_set hw h₁ with ⟨rfl, hx⟩ | ⟨ne₁, h₁'⟩
      · exact absurd hx (by simp)
      · rcases lookup_set hw h₂ with ⟨rfl, hx⟩ | ⟨ne₂, h₂'⟩
        · exact absurd hx (by simp)
        · exact u _ _ _ _ h₁' h₂'
    · intro w' e' h'
      rcases lookup_set hw h' with ⟨rfl, hx⟩ | ⟨ne, hww⟩
      · exact absurd hx (by simp)
      · exact absurd (u _ _ _ _ hww hw) ne
  | cancel =>
    refine ⟨u, ?_, ?_, ?_, ?_⟩
    · intro w' e' h'
      obtain ⟨r, hr, hrun, hep⟩ := xr w' e' h'
      refine ⟨cancelUpd r, by rw [hr]; rfl, ?_, ?_⟩
      · simp [cancelUpd, hrun, JobStatus.isTerminal]
      · simp [cancelUpd, hrun, JobStatus.isTerminal, hep]
    · intro r₂ hr₂
      match hrec : s.record with
      | none => rw [hrec] at hr₂; exact Option.noConfusion hr₂
      | some r =>
        rw [hrec] at hr₂
        injection hr₂ with hr₂
        subst hr₂
        obtain ⟨hprog, hle, hpe⟩ := rp r hrec
        obtain ⟨f1, f2, f3⟩ := cancelUpd_fields r
        refine ⟨?_, ?_, ?_⟩
        · rw [f1, f2, f3]; exact hprog
        · rw [f2, f3]; exact hle
        · intro hcon; exact absurd hcon (cancelUpd_not_pending r)
    · intro r₂ hr₂ hp₂
      match hrec : s.record with
      | none => rw [hrec] at hr₂; exact Option.noConfusion hr₂
      | some r =>
        rw [hrec] at hr₂
        injection hr₂ with hr₂
        subst hr₂
        exact absurd hp₂ (cancelUpd_not_pending r)
    · intro h'
      have : s.record = none := Option.map_eq_none.mp h'
      exact nnc this
  | tick =>
    exact ⟨u, xr, rp, pnc, nnc⟩

theorem reachable_inv {n : ℕ} {s : Sys} (h : Reachable n s) : SysInv s := by
  induction h with
  | refl => exact inv_init n
  | tail hsteps hstep ih =>
    obtain ⟨e, he⟩ := hstep
    exact inv_step ih he

/-! ## C1: the status lifecycle is a forward path with final terminal states -/

/-- The edge relation of the Job state machine, lifted to the optional
stored status: a record is created `Pending`; `Pending` may move to
`Running` (worker claim) or directly to `Stopped` (cancellation before
any dequeue, spec section 4.2); `Running` may move to any terminal
state; any status may stay unchanged; nothing leaves a terminal
state. -/
def statusStepOKB : Option JobStatus → Option JobStatus → Bool
  | none, none => true
  | none, some .pending => true
  | some a, some b =>
      (a == b) ||
      (a == .pending && b == .running) ||
      (a == .pending && b == .stopped) ||
      (a == .running && b.isTerminal)
  | _, _ => false

theorem statusStepOKB_refl (x : Option JobStatus) : statusStepOKB x x = true := by
  cases x with
  | none => rfl
  | some a => cases a <;> rfl

/-- Any status that is neither `Pending` nor terminal is `Running`. -/
theorem status_not_pending_not_terminal {a : JobStatus}
    (h₁ : ¬ a = JobStatus.pending) (h₂ : ¬ a.isTerminal = true) :
    a = JobStatus.running := by
  cases a <;> simp_all [JobStatus.isTerminal]

/-- C1.  In every reachable state, each step of the subsystem moves the
stored Job status along an edge of the state machine
`Pending → Running → (Completed | Failed | Stopped)` (with the direct
`Pending → Stopped` cancellation edge of spec section 4.2), and once
the record is in a terminal state no step mutates any field of the
record — in particular late duplicate progress events from a
re-delivered job leave it untouched. -/
theorem C1_status_machine {n : ℕ} {s s' : Sys} {e : Ev}
    (h : Reachable n s) (hst : Step s e s') :
    statusStepOKB (jobStatus s) (jobStatus s') = true ∧
    (∀ r, s.record = some r → r.status.isTerminal = true → s'.record = some r) := by
  have hinv := reachable_inv h
  cases hst with
  | submit total hrec =>
    constructor
    · simp [jobStatus, hrec, statusStepOKB, initRecord]
    · intro r hr
      rw [hrec] at hr
      exact Option.noConfusion hr
  | redeliver hrec =>
    exact ⟨statusStepOKB_refl _, fun r hr _ => hr⟩
  | dequeue hw hq =>
    exact ⟨statusStepOKB_refl _, fun r hr _ => hr⟩
  | claimOk hw hr hp =>
    constructor
    · simp [jobStatus, hr, hp, statusStepOKB]
    · intro r₂ hr₂ ht
      rw [hr] at hr₂
      injection hr₂ with hr₂
      subst hr₂
      rw [hp] at ht
      exact Bool.noConfusion ht
  | claimFail hw hr hp =>
    exact ⟨statusStepOKB_refl _, fun r hr _ => hr⟩
  | progress l m hw hr he =>
    obtain ⟨r₀, hr₀, hrun, hep⟩ := hinv.execRecord _ _ hw
    rw [hr] at hr₀
    injection hr₀ with hr₀
    subst hr₀
    constructor
    · simp [jobStatus, hr]
      exact statusStepOKB_refl _
    · intro r₂ hr₂ ht
      rw [hr] at hr₂
      injection hr₂ with hr₂
      subst hr₂
      rw [hrun] at ht
      exact Bool.noConfusion ht
  | complete path hw hr =>
    obtain ⟨r₀, hr₀, hrun, hep⟩ := hinv.execRecord _ _ hw
    rw [hr] at hr₀
    injection hr₀ with hr₀
    subst hr₀
    constructor
    · simp [jobStatus, hr, hrun, statusStepOKB, JobStatus.isTerminal]
    · intro r₂ hr₂ ht
      rw [hr] at hr₂
      injection hr₂ with hr₂
      subst hr₂
      rw [hrun] at ht
      exact Bool.noConfusion ht
  | failRun msg hw hr =>
    obtain ⟨r₀, hr₀, hrun, hep⟩ := hinv.execRecord _ _ hw
    rw [hr] at hr₀
    injection hr₀ with hr₀
    subst hr₀
    constructor
    · simp [jobStatus, hr, hrun, statusStepOKB, JobStatus.isTerminal]
    · intro r₂ hr₂ ht
      rw [hr] at hr₂
      injection hr₂ with hr₂
      subst hr₂
      rw [hrun] at ht
      exact Bool.noConfusion ht
  | observeCancel hw hr hc =>
    obtain ⟨r₀, hr₀, hrun, hep⟩ := hinv.execRecord _ _ hw
    rw [hr] at hr₀
    injection hr₀ with hr₀
    subst hr₀
    constructor
    · simp [jobStatus, hr, hrun, statusStepOKB, JobStatus.isTerminal]
    · intro r₂ hr₂ ht
      rw [hr] at hr₂
      injection hr₂ with hr₂
      subst hr₂
      rw [hrun] at ht
      exact Bool.noConfusion ht
  | crash hw =>
    exact ⟨statusStepOKB_refl _, fun r hr _ => hr⟩
  | cancel =>
    match hrec : s.record with
    | none =>
      constructor
      · simp [jobStatus, hrec, statusStepOKB]
      · intro r hr
        exact Option.noConfusion hr
    | some r =>
      constructor
      · simp only [jobStatus, hrec, Option.map_some']
        unfold cancelUpd
        split_ifs with h₁ h₂
        · rw [h₁]
          rfl
        · exact statusStepOKB_refl _
        · exact statusStepOKB_refl _
      · intro r₂ hr₂ ht
        injection hr₂ with hr₂
        subst hr₂
        have hnp : ¬ r.status = JobStatus.pending := by
          intro hcp
          rw [hcp] at ht
          exact Bool.noConfusion ht
        have hfix : cancelUpd r = r := by
          unfold cancelUpd
          rw [if_neg hnp, if_pos ht]
        show Option.map cancelUpd (some r) = some r
        rw [Option.map_some', hfix]
  | tick =>
    exact ⟨statusStepOKB_refl _, fun r hr _ => hr⟩

/-! ## C2: the atomic claim admits exactly one winner -/

/-- C2.  If two distinct workers both hold a delivery of the same
`Pending` Job and one of them performs the atomic conditional claim,
then: the record becomes `Running`; the claim of the other worker can no
longer succeed; its failing claim mutates nothing and sends it back to
idle (dequeuing); and at most one worker is executing the Job. -/
theorem C2_atomic_claim {n : ℕ} {s s₁ : Sys} {r : JobRecord} (w₁ w₂ : ℕ)
    (h : Reachable n s) (hr : s.record = some r) (hp : r.status = JobStatus.pending)
    (hw₂ : s.workers[w₂]? = some WorkerState.holding) (hne : w₂ ≠ w₁)
    (hc : Step s (Ev.claimOk w₁) s₁) :
    (∃ r₁, s₁.record = some r₁ ∧ r₁.status = JobStatus.running)
    ∧ (¬ ∃ s₂, Step s₁ (Ev.claimOk w₂) s₂)
    ∧ (∀ s₂, Step s₁ (Ev.claimFail w₂) s₂ →
        s₂.record = s₁.record ∧ s₂.workers[w₂]? = some WorkerState.idle)
    ∧ (∀ (v₁ v₂ f₁ f₂ : ℕ), s₁.workers[v₁]? = some (WorkerState.executing f₁) →
        s₁.workers[v₂]? = some (WorkerState.executing f₂) → v₁ = v₂) := by
  have hinv₁ : SysInv s₁ := inv_step (reachable_inv h) hc
  cases hc with
  | claimOk hw₁ hr' hp' =>
    rename_i r'
    have hrr : r' = r := by
      rw [hr] at hr'
      injection hr' with hr'
      exact hr'.symm
    subst hrr
    have hw₂' : (s.workers.set w₁ (WorkerState.executing 0))[w₂]? = some WorkerState.holding := by
      rw [List.getElem?_set_ne (fun hx => hne hx.symm)]
      exact hw₂
    refine ⟨⟨_, rfl, rfl⟩, ?_, ?_, hinv₁.uniqueExec⟩
    · rintro ⟨s₂, hs₂⟩
      cases hs₂ with
      | claimOk hw₂'' hr₂ hp₂ =>
        injection hr₂ with hr₂
        rw [← hr₂] at hp₂
        exact JobStatus.noConfusion hp₂
    · intro s₂ hs₂
      cases hs₂ with
      | claimFail hw₂'' hr₂ hp₂ =>
        exact ⟨rfl, lookup_set_self hw₂'⟩

/-! ## C3: stored progress is the clamped percentage and never decreases -/

/-- C3.  In every reachable state the stored progress equals
`current_epoch / total_epochs * 100` clamped to `[0, 100]`; hence it
lies in `[0, 100]`; and no step of the subsystem ever decreases it. -/
theorem C3_progress {n : ℕ} {s : Sys} {r : JobRecord}
    (h : Reachable n s) (hr : s.record = some r) :
    r.progress = pct r.currentEpoch r.totalEpochs
    ∧ 0 ≤ r.progress ∧ r.progress ≤ 100
    ∧ (∀ (e : Ev) (s' : Sys) (r' : JobRecord), Step s e s' → s'.record = some r' →
        r.progress ≤ r'.progress) := by
  have hinv := reachable_inv h
  obtain ⟨hprog, hle, -⟩ := hinv.recordOk r hr
  refine ⟨hprog, by rw [hprog]; exact pct_nonneg _ _, by rw [hprog]; exact pct_le_100 _ _, ?_⟩
  intro e s' r' hst hr'
  cases hst with
  | submit total hrec =>
    rw [hrec] at hr
    exact Option.noConfusion hr
  | redeliver hrec =>
    rw [hr] at hr'
    injection hr' with hr'
    rw [hr']
  | dequeue hw hq =>
    rw [hr] at hr'
    injection hr' with hr'
    rw [hr']
  | claimOk hw hrec hp =>
    rw [hr] at hrec
    injection hrec with hrec
    subst hrec
    injection hr' with hr'
    rw [← hr']
  | claimFail hw hrec hp =>
    rw [hr] at hr'
    injection hr' with hr'
    rw [hr']
  | progress l m hw hrec he =>
    rw [hr] at hrec
    injection hrec with hrec
    subst hrec
    injection hr' with hr'
    rw [← hr']
    obtain ⟨r₀, hr₀, hrun, hep⟩ := hinv.execRecord _ _ hw
    rw [hr] at hr₀
    injection hr₀ with hr₀
    subst hr₀
    show r.progress ≤ pct _ r.totalEpochs
    rw [hprog, ← hep]
    exact pct_mono _ (Nat.le_succ _)
  | complete path hw hrec =>
    rw [hr] at hrec
    injection hrec with hrec
    subst hrec
    injection hr' with hr'
    rw [← hr']
  | failRun msg hw hrec =>
    rw [hr] at hrec
    injection hrec with hrec
    subst hrec
    injection hr' with hr'
    rw [← hr']
  | observeCancel hw hrec hcq =>
    rw [hr] at hrec
    injection hrec with hrec
    subst hrec
    injection hr' with hr'
    rw [← hr']
  | crash hw =>
    rw [hr] at hr'
    injection hr' with hr'
    rw [hr']
  | cancel =>
    rw [hr] at hr'
    simp only [Option.map_some'] at hr'
    injection hr' with hr'
    rw [← hr', (cancelUpd_fields r).1]
  | tick =>
    rw [hr] at hr'
    injection hr' with hr'
    rw [hr']

/-! ## C6: cancellation of a Pending Job -/

/-- A linear rank on the optional stored status: absent, `Pending`,
`Running`, terminal.  Steps never decrease it. -/
def statusRank : Option JobStatus → ℕ
  | none => 0
  | some .pending => 1
  | some .running => 2
  | some _ => 3

theorem statusRank_le_three (x : Option JobStatus) : statusRank x ≤ 3 := by
  cases x with
  | none => exact Nat.zero_le 3
  | some a => cases a <;> simp [statusRank]

theorem statusRank_step {s s' : Sys} {e : Ev} (hst : Step s e s') :
    statusRank (jobStatus s) ≤ statusRank (jobStatus s') := by
  cases hst with
  | submit total hrec =>
    simp [jobStatus, hrec, initRecord, statusRank]
  | redeliver hrec => exact le_rfl
  | dequeue hw hq => exact le_rfl
  | claimOk hw hr hp =>
    simp [jobStatus, hr, hp, statusRank]
  | claimFail hw hr hp => exact le_rfl
  | progress l m hw hr he =>
    simp [jobStatus, hr]
  | complete path hw hr =>
    simp only [jobStatus, hr, Option.map_some']
    exact le_trans (statusRank_le_three _) (by simp [statusRank])
  | failRun msg hw hr =>
    simp only [jobStatus, hr, Option.map_some']
    exact le_trans (statusRank_le_three _) (by simp [statusRank])
  | observeCancel hw hr hc =>
    simp only [jobStatus, hr, Option.map_some']
    exact le_trans (statusRank_le_three _) (by simp [statusRank])
  | crash hw => exact le_rfl
  | cancel =>
    match hrec : s.record with
    | none => simp [jobStatus, hrec]
    | some r =>
      simp only [jobStatus, hrec, Option.map_some']
      unfold cancelUpd
      split_ifs with h₁ h₂
      · rw [h₁]
        simp [statusRank]
      · exact le_rfl
      · exact le_rfl
  | tick => exact le_rfl

theorem statusRank_reaches {s t : Sys} (h : Reaches s t) :
    statusRank (jobStatus s) ≤ statusRank (jobStatus t) := by
  induction h with
  | refl => exact le_rfl
  | tail hsteps hstep ih =>
    obtain ⟨e, he⟩ := hstep
    exact le_trans ih (statusRank_step he)

/-- Once the Job is `Stopped` with the training routine never invoked,
every later state is still `Stopped` with the routine still never
invoked. -/
theorem stopped_permanent {s : Sys} (hinv : SysInv s)
    (hst : jobStatus s = some JobStatus.stopped) (htc : s.trainCalls = 0)
    {u : Sys} (h : Reaches s u) :
    jobStatus u = some JobStatus.stopped ∧ u.trainCalls = 0 := by
  have main : SysInv u ∧ jobStatus u = some JobStatus.stopped ∧ u.trainCalls = 0 := by
    induction h with
    | refl => exact ⟨hinv, hst, htc⟩
    | tail hsteps hstep ih =>
      obtain ⟨invb, hstb, htcb⟩ := ih
      obtain ⟨e, he⟩ := hstep
      refine ⟨inv_step invb he, ?_⟩
      cases he with
      | submit total hrec =>
        rw [jobStatus, hrec] at hstb
        exact Option.noConfusion hstb
      | redeliver hrec => exact ⟨hstb, htcb⟩
      | dequeue hw hq => exact ⟨hstb, htcb⟩
      | claimOk hw hr hp =>
        simp only [jobStatus, hr, Option.map_some', Option.some.injEq] at hstb
        rw [hp] at hstb
        exact JobStatus.noConfusion hstb
      | claimFail hw hr hp => exact ⟨hstb, htcb⟩
      | progress l m hw hr he2 =>
        obtain ⟨r₀, hr₀, hrun, -⟩ := invb.execRecord _ _ hw
        simp only [jobStatus, hr₀, Option.map_some', Option.some.injEq] at hstb
        rw [hrun] at hstb
        exact JobStatus.noConfusion hstb
      | complete path hw hr =>
        obtain ⟨r₀, hr₀, hrun, -⟩ := invb.execRecord _ _ hw
        simp only [jobStatus, hr₀, Option.map_some', Option.some.injEq] at hstb
        rw [hrun] at hstb
        exact JobStatus.noConfusion hstb
      | failRun msg hw hr =>
        obtain ⟨r₀, hr₀, hrun, -⟩ := invb.execRecord _ _ hw
        simp only [jobStatus, hr₀, Option.map_some', Option.some.injEq] at hstb
        rw [hrun] at hstb
        exact JobStatus.noConfusion hstb
      | observeCancel hw hr hc =>
        obtain ⟨r₀, hr₀, hrun, -⟩ := invb.execRecord _ _ hw
        simp only [jobStatus, hr₀, Option.map_some', Option.some.injEq] at hstb
        rw [hrun] at hstb
        exact JobStatus.noConfusion hstb
      | crash hw => exact ⟨hstb, htcb⟩
      | cancel =>
        rename_i b
        match hrec : b.record with
        | none =>
          rw [jobStatus, hrec] at hstb
          exact Option.noConfusion hstb
        | some r =>
          simp only [jobStatus, hrec, Option.map_some', Option.some.injEq] at hstb
          have hterm : r.status.isTerminal = true := by
            rw [hstb]
            rfl
          have hnp : ¬ r.status = JobStatus.pending := by
            rw [hstb]
            simp
          have hfix : cancelUpd r = r := by
            unfold cancelUpd
            rw [if_neg hnp, if_pos hterm]
          refine ⟨?_, htcb⟩
          simp [jobStatus, hfix, hstb]
      | tick => exact ⟨hstb, htcb⟩
  exact ⟨main.2.1, main.2.2⟩

/-- C6.  If a reachable Job record is still `Pending` and the
Coordinator cancels it, then: the Job is `Stopped` immediately; the
external training routine was never invoked for this identifier; the
status was never `Running` at any earlier point of the run; and every
later state still shows `Stopped` with the training routine still
never invoked. -/
theorem C6_cancel_pending {n : ℕ} {s s' : Sys} {r : JobRecord}
    (h : Reachable n s) (hr : s.record = some r) (hp : r.status = JobStatus.pending)
    (hc : Step s Ev.cancel s') :
    jobStatus s' = some JobStatus.stopped ∧ s'.trainCalls = 0
    ∧ (∀ t, Reaches (initSys n) t → Reaches t s → jobStatus t ≠ some JobStatus.running)
    ∧ (∀ u, Reaches s' u → jobStatus u = some JobStatus.stopped ∧ u.trainCalls = 0) := by
  have hinv := reachable_inv h
  have htc : s.trainCalls = 0 := hinv.pendingNoCalls r hr hp
  have hstat' : jobStatus s' = some JobStatus.stopped := by
    cases hc with
    | cancel =>
      have hfix : cancelUpd r = { r with status := .stopped, cancelRequested := true } := by
        unfold cancelUpd
        rw [if_pos hp]
      simp [jobStatus, hr, hfix]
  have htc' : s'.trainCalls = 0 := by
    cases hc with
    | cancel => exact htc
  refine ⟨hstat', htc', ?_, ?_⟩
  · intro t ht hts hcon
    have h1 : statusRank (jobStatus t) ≤ statusRank (jobStatus s) := statusRank_reaches hts
    rw [hcon, jobStatus, hr, Option.map_some', hp] at h1
    simp [statusRank] at h1
  · intro u hu
    exact stopped_permanent (inv_step hinv hc) hstat' htc' hu

/-! ## C7: a crashed worker leaves the Job stuck in Running forever -/

/-- Once the record is `Running` with no executing worker left (the
situation after a worker crash), every later reachable state still has
the record `Running` with no executing worker: the subsystem contains
no reconciliation or staleness transition that could ever move it to
`Failed`.  This matches the known issue recorded in
`DEVELOPMENT.md`: a worker abnormal exit does not update the task
status. -/
theorem stuck_running_permanent {s : Sys}
    (hst : jobStatus s = some JobStatus.running)
    (hw : ∀ (w e : ℕ), ¬ s.workers[w]? = some (WorkerState.executing e))
    {u : Sys} (h : Reaches s u) :
    jobStatus u = some JobStatus.running
    ∧ ∀ (w e : ℕ), ¬ u.workers[w]? = some (WorkerState.executing e) := by
  induction h with
  | refl => exact ⟨hst, hw⟩
  | tail hsteps hstep ih =>
    obtain ⟨hstb, hwb⟩ := ih
    obtain ⟨e, he⟩ := hstep
    cases he with
    | submit total hrec =>
      rw [jobStatus, hrec] at hstb
      exact Option.noConfusion hstb
    | redeliver hrec => exact ⟨hstb, hwb⟩
    | dequeue hw2 hq =>
      refine ⟨hstb, ?_⟩
      intro w' e' hx
      rcases lookup_set hw2 hx with ⟨rfl, hy⟩ | ⟨ne, hy⟩
      · exact WorkerState.noConfusion hy
      · exact hwb _ _ hy
    | claimOk hw2 hr hp =>
      simp only [jobStatus, hr, Option.map_some', Option.some.injEq] at hstb
      rw [hp] at hstb
      exact JobStatus.noConfusion hstb
    | claimFail hw2 hr hp =>
      refine ⟨hstb, ?_⟩
      intro w' e' hx
      rcases lookup_set hw2 hx with ⟨rfl, hy⟩ | ⟨ne, hy⟩
      · exact WorkerState.noConfusion hy
      · exact hwb _ _ hy
    | progress l m hw2 hr he2 => exact absurd hw2 (hwb _ _)
    | complete path hw2 hr => exact absurd hw2 (hwb _ _)
    | failRun msg hw2 hr => exact absurd hw2 (hwb _ _)
    | observeCancel hw2 hr hc => exact absurd hw2 (hwb _ _)
    | crash hw2 => exact absurd hw2 (hwb _ _)
    | cancel =>
      rename_i b
      match hrec : b.record with
      | none =>
        rw [jobStatus, hrec] at hstb
        exact Option.noConfusion hstb
      | some r =>
        simp only [jobStatus, hrec, Option.map_some', Option.some.injEq] at hstb
        have hnp : ¬ r.status = JobStatus.pending := by
          rw [hstb]
          simp
        have hnt : ¬ r.status.isTerminal = true := by
          rw [hstb]
          simp [JobStatus.isTerminal]
        have hfix : cancelUpd r = { r with cancelRequested := true } := by
          unfold cancelUpd
          rw [if_neg hnp, if_neg hnt]
        refine ⟨?_, hwb⟩
        simp [jobStatus, hfix, hstb]
    | tick => exact ⟨hstb, hwb⟩

/-- C7 (refuting the claim: the code keeps the Job in `Running`
forever).  In any reachable state where the record is `Running` and no
worker is executing it — exactly the situation after a worker crash
following the claim — every later reachable state still has the record
`Running`: no reconciliation check ever marks it `Failed` with reason
"worker lost", because no such transition exists in the source (its
documentation records this as a known issue). -/
theorem C7_stuck_running {n : ℕ} {s : Sys}
    (h : Reachable n s) (hst : jobStatus s = some JobStatus.running)
    (hw : ∀ (w e : ℕ), ¬ s.workers[w]? = some (WorkerState.executing e)) :
    ∀ u, Reaches s u → jobStatus u = some JobStatus.running := by
  intro u hu
  exact (stuck_running_permanent hst hw hu).1

/-! ## C4: the Coordinator submit path -/

/-- Modelled from the spec: the constraint violations that submission
validation can report (spec section 4.4 names the epoch count being
out of range and a missing dataset reference as the validated shape
constraints; the concrete epoch range 1..1000 is the one the
form of the repository enforces). -/
inductive ConfigError where
  | epochsOutOfRange
  | missingDatasetRef
deriving DecidableEq, Repr

/-- Modelled from the spec: the configuration document of a training
submission, reduced to the fields the Coordinator validates. -/
structure TrainConfig where
  epochs : ℤ
  datasetRef : String
deriving DecidableEq, Repr

/-- Modelled from the spec: shape validation of a submission,
returning the list of violated constraints. -/
def validateConfig (c : TrainConfig) : List ConfigError :=
  (if c.epochs < 1 ∨ 1000 < c.epochs then [ConfigError.epochsOutOfRange] else [])
  ++ (if c.datasetRef = "" then [ConfigError.missingDatasetRef] else [])

/-- The result returned to the submitting caller. -/
inductive SubmitOutcome where
  | invalidConfig (errs : List ConfigError)
  | accepted (id : ℕ) (st : JobStatus)
  | queueUnavailable (id : ℕ)
deriving DecidableEq, Repr

/-- The store/queue effect of one submission: the record written (if
any), whether the job reference was enqueued, and the caller-visible
outcome. -/
structure SubmitEffect where
  created : Option JobRecord
  enqueued : Bool
  outcome : SubmitOutcome
deriving DecidableEq, Repr

/-- Modelled from the spec: `submit(config)` (spec section 4.4).
Validation failure reports `InvalidConfig` before any record is
created; otherwise the Progress Record is created with status
`Pending` and the job is enqueued; if the enqueue step fails
(`qAvail = false`) after the record was created, the record is marked
failed-to-schedule and the submission is surfaced as a failure. -/
def submit (c : TrainConfig) (newId : ℕ) (qAvail : Bool) (now : ℕ) : SubmitEffect :=
  if validateConfig c ≠ [] then
    { created := none, enqueued := false, outcome := .invalidConfig (validateConfig c) }
  else if qAvail then
    { created := some (initRecord c.epochs.toNat now), enqueued := true
      outcome := .accepted newId .pending }
  else
    { created := some { initRecord c.epochs.toNat now with
                          status := .failed
                          errorMessage := some ("failed to schedule") }
      enqueued := false
      outcome := .queueUnavailable newId }

/-- C4.  `submit` rejects an invalid configuration with
`InvalidConfig` before any record is created; on valid input it
creates the record with status `Pending`, enqueues, and returns the
new identifier with status `Pending`; if the enqueue step fails after
record creation, the record is marked failed-to-schedule and the
submission is surfaced as a failure; and no submission ever leaves a
record `Pending` without queued work. -/
theorem C4_submit (c : TrainConfig) (newId : ℕ) (qAvail : Bool) (now : ℕ) :
    (validateConfig c ≠ [] →
      (submit c newId qAvail now).created = none ∧
      (submit c newId qAvail now).outcome = .invalidConfig (validateConfig c))
    ∧ (validateConfig c = [] → qAvail = true →
      (submit c newId qAvail now).created = some (initRecord c.epochs.toNat now) ∧
      (initRecord c.epochs.toNat now).status = .pending ∧
      (submit c newId qAvail now).enqueued = true ∧
      (submit c newId qAvail now).outcome = .accepted newId .pending)
    ∧ (validateConfig c = [] → qAvail = false →
      (∃ r, (submit c newId qAvail now).created = some r ∧
        r.status = .failed ∧ r.errorMessage = some ("failed to schedule")) ∧
      (submit c newId qAvail now).outcome = .queueUnavailable newId)
    ∧ (∀ r, (submit c newId qAvail now).created = some r → r.status = .pending →
      (submit c newId qAvail now).enqueued = true) := by
  refine ⟨?_, ?_, ?_, ?_⟩
  · intro hv
    rw [submit, if_pos hv]
    exact ⟨rfl, rfl⟩
  · intro hv hq
    rw [submit, if_neg (by rw [hv]; simp), hq, if_pos rfl]
    exact ⟨rfl, rfl, rfl, rfl⟩
  · intro hv hq
    rw [submit, if_neg (by rw [hv]; simp), hq]
    exact ⟨⟨_, rfl, rfl, rfl⟩, rfl⟩
  · by_cases hv : validateConfig c = []
    · cases hq : qAvail with
      | true =>
        intro r hcreated hpend
        rw [submit, if_neg (by rw [hv]; simp), if_pos rfl]
      | false =>
        intro r hcreated hpend
        rw [submit, if_neg (by rw [hv]; simp), if_neg (by simp)] at hcreated
        injection hcreated with hcreated
        rw [← hcreated] at hpend
        simp at hpend
    · intro r hcreated hpend
      rw [submit, if_pos hv] at hcreated
      exact Option.noConfusion hcreated

/-! ## C5: the Coordinator cancel path -/

/-- The result of a cancellation request at the Coordinator
boundary. -/
inductive CancelOutcome where
  | notFound
  | ok (r : JobRecord)
deriving DecidableEq, Repr

/-- Modelled from the spec: `cancel(job_id)` (spec section 4.4): the
HTTP 404 `NotFound` failure if the identifier is unknown; a no-op
returning the current state if the Job is already terminal; otherwise
the `cancelUpd` mutation of section 4.2. -/
def cancelJob (store : Option JobRecord) : CancelOutcome × Option JobRecord :=
  match store with
  | none => (.notFound, none)
  | some r => (.ok (cancelUpd r), some (cancelUpd r))

/-- C5.  `cancel` fails with `NotFound` if the identifier is unknown;
if the Job is already terminal it is a no-op leaving the record
unchanged and is not an error; otherwise it sets the cancellation flag
on the record of the Job. -/
theorem C5_cancel (store : Option JobRecord) :
    (store = none → cancelJob store = (.notFound, none))
    ∧ (∀ r, store = some r → r.status.isTerminal = true →
        cancelJob store = (.ok r, some r))
    ∧ (∀ r, store = some r → r.status.isTerminal = false →
        ∃ r', cancelJob store = (.ok r', some r') ∧ r'.cancelRequested = true) := by
  refine ⟨?_, ?_, ?_⟩
  · intro h
    rw [h]
    rfl
  · intro r hr ht
    rw [hr]
    have hnp : ¬ r.status = JobStatus.pending := by
      intro hcp
      rw [hcp] at ht
      exact Bool.noConfusion ht
    have hfix : cancelUpd r = r := by
      unfold cancelUpd
      rw [if_neg hnp, if_pos ht]
    rw [cancelJob, hfix]
  · intro r hr ht
    rw [hr]
    refine ⟨cancelUpd r, rfl, ?_⟩
    unfold cancelUpd
    split_ifs with h₁ h₂
    · rfl
    · rw [ht] at h₂
      exact Bool.noConfusion h₂
    · rfl

/-! ## C8: the Progress Notifier -/

/-- Modelled from the spec: whether an observer subscription opened at
time `sub` is still open at poll instant `t`: it has started
(`sub ≤ t`) and no earlier poll in `[sub, t)` delivered a terminal
snapshot (the Notifier closes a subscription right after delivering a
terminal snapshot). -/
def subOpen (σ : ℕ → JobRecord) (sub t : ℕ) : Bool :=
  decide (sub ≤ t ∧ ∀ i < t - sub, (σ (sub + i)).status.isTerminal = false)

/-- Modelled from the spec: the snapshot (if any) delivered to the
observer at poll instant `t`: the Notifier polls the Progress Record
at a bounded cadence and sends the current record while the
subscription is open (spec section 4.5). -/
def delivered (σ : ℕ → JobRecord) (sub t : ℕ) : Option JobRecord :=
  if subOpen σ sub t then some (σ t) else none

/-- The record history is absorbing in terminal states: once a
terminal snapshot is stored, the record never changes again (the
terminal-state-is-final rule of the record store). -/
def Absorbing (σ : ℕ → JobRecord) : Prop :=
  ∀ t, (σ t).status.isTerminal = true → σ (t + 1) = σ t

theorem absorbing_ge {σ : ℕ → JobRecord} (h : Absorbing σ) {T : ℕ}
    (hT : (σ T).status.isTerminal = true) :
    ∀ t, T ≤ t → σ t = σ T := by
  intro t ht
  induction t, ht using Nat.le_induction with
  | base => rfl
  | succ t ht ih =>
    rw [h t (by rw [ih]; exact hT), ih]

/-- C8.  Assume the record history of the Job is terminal-absorbing and the
Job reaches a terminal state at time `T`.  Then (1) an observer
subscribed at any time `sub` receives a terminal snapshot at some poll
instant no later than `max sub T`, after which the subscription is
closed and nothing more is delivered; and (2) an observer that
subscribes after the Job is already terminal (`T ≤ sub`) immediately
receives the terminal snapshot at its first poll and receives nothing
afterwards. -/
theorem C8_notifier (σ : ℕ → JobRecord) (sub T : ℕ)
    (habs : Absorbing σ) (hT : (σ T).status.isTerminal = true) :
    (∃ t, sub ≤ t ∧ t ≤ max sub T ∧
      (∃ r, delivered σ sub t = some r ∧ r.status.isTerminal = true) ∧
      ∀ u, t < u → delivered σ sub u = none)
    ∧ (T ≤ sub → delivered σ sub sub = some (σ T) ∧
        ∀ u, sub < u → delivered σ sub u = none) := by
  constructor
  · have hex : ∃ u, sub ≤ u ∧ (σ u).status.isTerminal = true := by
      refine ⟨max sub T, le_max_left _ _, ?_⟩
      rw [absorbing_ge habs hT _ (le_max_right _ _)]
      exact hT
    obtain ⟨hsub₀, hterm₀⟩ := Nat.find_spec hex
    refine ⟨Nat.find hex, hsub₀, ?_, ⟨σ (Nat.find hex), ?_, hterm₀⟩, ?_⟩
    · exact Nat.find_min' hex ⟨le_max_left _ _, by
        rw [absorbing_ge habs hT _ (le_max_right _ _)]
        exact hT⟩
    · have hopen : subOpen σ sub (Nat.find hex) = true := by
        rw [subOpen, decide_eq_true_eq]
        refine ⟨hsub₀, ?_⟩
        intro i hi
        by_contra hcon
        have hterm : (σ (sub + i)).status.isTerminal = true := by
          cases hx : (σ (sub + i)).status.isTerminal
          · exact absurd hx hcon
          · rfl
        have hlt : sub + i < Nat.find hex := by omega
        exact (Nat.find_min hex hlt) ⟨Nat.le_add_right _ _, hterm⟩
      rw [delivered, if_pos hopen]
    · intro u hu
      have hclosed : subOpen σ sub u = false := by
        rw [subOpen, decide_eq_false_iff_not]
        intro ⟨hle, hall⟩
        have hi : Nat.find hex - sub < u - sub := by omega
        have := hall (Nat.find hex - sub) hi
        rw [Nat.add_sub_cancel' hsub₀] at this
        rw [hterm₀] at this
        exact Bool.noConfusion this
      rw [delivered, if_neg (by rw [hclosed]; exact Bool.false_ne_true)]
  · intro hTs
    have hself : σ sub = σ T := absorbing_ge habs hT sub hTs
    constructor
    · have hopen : subOpen σ sub sub = true := by
        rw [subOpen, decide_eq_true_eq]
        exact ⟨le_rfl, fun i hi => absurd hi (by omega)⟩
      rw [delivered, if_pos hopen, hself]
    · intro u hu
      have hclosed : subOpen σ sub u = false := by
        rw [subOpen, decide_eq_false_iff_not]
        intro ⟨hle, hall⟩
        have := hall 0 (by omega)
        rw [Nat.add_zero, hself, hT] at this
        exact Bool.noConfusion this
      rw [delivered, if_neg (by rw [hclosed]; exact Bool.false_ne_true)]

/-! ## The TrainingMonitor component (frontend/src/components/TrainingMonitor.jsx) -/

/-- One point of the charting history kept by `TrainingMonitor`
(`{epoch, loss, map}`). -/
structure HistPoint where
  epoch : ℤ
  loss : ℚ
  map : ℚ
deriving DecidableEq, Repr

/-- The React state of `TrainingMonitor` that the WebSocket message
handler can mutate: `status`, `progress`, `currentEpoch`,
`totalEpochs`, `metrics` (loss and mAP), `history`, `logs` and
`error`. -/
structure MonitorState where
  status : String
  progress : ℚ
  currentEpoch : ℤ
  totalEpochs : ℤ
  metricsLoss : Option ℚ
  metricsMap : Option ℚ
  history : List HistPoint
  logs : List String
  errorMsg : Option String
deriving DecidableEq, Repr

/-- The `data` payload of a `progress` message. -/
structure ProgressData where
  status : String
  progress : ℚ
  currentEpoch : ℤ
  totalEpochs : ℤ
  currentLoss : Option ℚ
  currentMap : Option ℚ
deriving DecidableEq, Repr

/-- The `data` payload of a `finished` message. -/
structure FinishedData where
  status : String
  modelPath : String
  saveDir : String
  errorMessage : Option String
deriving DecidableEq, Repr

/-- The helper `addLog` appends a line to the log list (the wall-clock timestamp
prefix is elided). -/
def addLogM (st : MonitorState) (line : String) : MonitorState :=
  { st with logs := st.logs ++ [line] }

/-- Embeds `handleProgressUpdate` from `TrainingMonitor.jsx` (lines 94-128):
copies status, progress, epoch counters and latest metrics from the
payload into the component state, and if `current_epoch > 0` replaces
the history entry for that epoch (found by `findIndex`) or appends a
new one, then logs a line. -/
def handleProgressUpdateM (st : MonitorState) (d : ProgressData) : MonitorState :=
  let st1 : MonitorState :=
    { st with status := d.status
              progress := d.progress
              currentEpoch := d.currentEpoch
              totalEpochs := d.totalEpochs
              metricsLoss := d.currentLoss
              metricsMap := d.currentMap }
  if 0 < d.currentEpoch then
    let nd : HistPoint := ⟨d.currentEpoch, d.currentLoss.getD 0, d.currentMap.getD 0⟩
    let hist :=
      match st1.history.findIdx? (fun p => p.epoch == d.currentEpoch) with
      | some i => st1.history.set i nd
      | none => st1.history ++ [nd]
    addLogM { st1 with history := hist }
      ("Epoch " ++ toString d.currentEpoch ++ "/" ++ toString d.totalEpochs)
  else st1

/-- Embeds `handleTrainingFinished` from `TrainingMonitor.jsx` (lines
130-143): stores the final status; on `completed` logs the completion
lines, on `failed` records the error message and logs it, on `stopped`
logs the stop line. -/
def handleTrainingFinishedM (st : MonitorState) (d : FinishedData) : MonitorState :=
  let st1 : MonitorState := { st with status := d.status }
  if d.status = "completed" then
    addLogM (addLogM (addLogM st1 ("training finished"))
      ("model path: " ++ d.modelPath)) ("save dir: " ++ d.saveDir)
  else if d.status = "failed" then
    addLogM { st1 with errorMsg := d.errorMessage }
      ("training failed: " ++ (d.errorMessage.getD ("undefined")))
  else if d.status = "stopped" then
    addLogM st1 ("training stopped")
  else st1

/-- The outcome of receiving one WebSocket frame in `ws.onmessage`:
either `JSON.parse` threw (`invalidJson`, caught by the surrounding
`try`), or it produced an object with an optional `type` field, an
optional `message` field, and optional `progress`/`finished` data
payloads. -/
inductive WsEvent where
  | invalidJson
  | parsed (mtype : Option String) (message : Option String)
      (pd : Option ProgressData) (fd : Option FinishedData)

/-- The message types the `switch` in `ws.onmessage` dispatches on. -/
def knownTypes : List String := ["connected", "progress", "finished", "error"]

/-- Embeds `ws.onmessage` from `TrainingMonitor.jsx` (lines 46-74): parse the
frame inside a `try` (a parse failure is caught and only logged to
the console), then dispatch on `message.type`: `connected` logs,
`progress` and `finished` run their handlers (accessing a missing
`data` field throws inside the `try` and is caught, leaving the state
unchanged), `error` records the error message and logs, and any other
type falls to the `default` branch which only writes to the console. -/
def onMessage (st : MonitorState) (ev : WsEvent) : MonitorState :=
  match ev with
  | .invalidJson => st
  | .parsed mtype msg pd fd =>
    match mtype with
    | none => st
    | some t =>
      if t = "connected" then addLogM st (msg.getD ("undefined"))
      else if t = "progress" then
        match pd with
        | some d => handleProgressUpdateM st d
        | none => st
      else if t = "finished" then
        match fd with
        | some d => handleTrainingFinishedM st d
        | none => st
      else if t = "error" then
        { addLogM st ("error: " ++ msg.getD ("undefined")) with errorMsg := msg }
      else st

/-- C10.  A WebSocket frame whose payload is not valid JSON, or whose
parsed `type` field is missing or not one of `connected`, `progress`,
`finished`, `error`, leaves the whole monitor state (in particular
status, progress, currentEpoch, totalEpochs, metrics, history and
error) unchanged, and the handler returns normally rather than
propagating an exception. -/
theorem C10_onmessage (st : MonitorState) (ev : WsEvent)
    (h : ev = WsEvent.invalidJson ∨
      ∃ mt msg pd fd, ev = WsEvent.parsed mt msg pd fd ∧
        ∀ t, mt = some t → ¬ t ∈ knownTypes) :
    onMessage st ev = st := by
  rcases h with rfl | ⟨mt, msg, pd, fd, rfl, hunk⟩
  · rfl
  · cases mt with
    | none => rfl
    | some t =>
      have ht := hunk t rfl
      simp only [knownTypes, List.mem_cons, List.not_mem_nil, or_false, not_or] at ht
      obtain ⟨h1, h2, h3, h4⟩ := ht
      simp only [onMessage]
      rw [if_neg h1, if_neg h2, if_neg h3, if_neg h4]

/-- Witness for C10: a malformed frame and a frame with the
unrecognised type `ping` leave a concrete monitor state untouched. -/
theorem C10_onmessage_witness :
    onMessage ⟨"running", 50, 1, 3, some 1, none, [], [], none⟩ WsEvent.invalidJson
      = ⟨"running", 50, 1, 3, some 1, none, [], [], none⟩
    ∧ onMessage ⟨"running", 50, 1, 3, some 1, none, [], [], none⟩
        (WsEvent.parsed (some ("ping")) none none none)
      = ⟨"running", 50, 1, 3, some 1, none, [], [], none⟩ := by
  constructor
  · exact C10_onmessage _ _ (Or.inl rfl)
  · exact C10_onmessage _ _ (Or.inr ⟨some ("ping"), none, none, none, rfl, by
      intro t hteq
      injection hteq with hteq
      subst hteq
      decide⟩)

/-! ## The TrainingForm component (frontend/src/components/TrainingForm.jsx) -/

/-- The form fields of `TrainingForm`.  Text inputs and selects hold
strings, checkboxes booleans; the numeric inputs (`type="number"`)
hold the numeric value of the input string, modelled as a rational
(an empty or cleared input coerces to 0 in the comparisons the
validator performs). -/
structure FormData where
  projectName : String
  modelName : String
  yoloVersion : String
  epochs : ℚ
  batchSize : ℚ
  imgSize : ℚ
  dataYaml : String
  trainPath : String
  valPath : String
  classNames : String
  device : String
  workers : ℚ
  optimizer : String
  patience : ℚ
  lr0 : ℚ
  cosineLr : Bool
  augment : Bool
  degrees : ℚ
  flipLR : ℚ
  mosaic : ℚ
deriving DecidableEq, Repr

/-- The initial `useState` value of the form (lines 9-39). -/
def initFormData : FormData :=
  { projectName := "yolo_project"
    modelName := "training"
    yoloVersion := "v11"
    epochs := 100
    batchSize := 8
    imgSize := 640
    dataYaml := ""
    trainPath := ""
    valPath := ""
    classNames := ""
    device := "auto"
    workers := 4
    optimizer := "AdamW"
    patience := 20
    lr0 := 1 / 1000
    cosineLr := true
    augment := true
    degrees := 10
    flipLR := 1 / 2
    mosaic := 1 }

/-- The names of the form fields, used to track which field an edit
targets and which fields carry validation errors. -/
inductive FieldName where
  | projectName
  | modelName
  | yoloVersion
  | epochs
  | batchSize
  | imgSize
  | dataYaml
  | trainPath
  | valPath
  | classNames
  | device
  | workers
  | optimizer
  | patience
  | lr0
  | cosineLr
  | augment
  | degrees
  | flipLR
  | mosaic
deriving DecidableEq, Repr

/-- One `handleChange` edit: the targeted field together with the new
value. -/
inductive FieldUpd where
  | projectName (v : String)
  | modelName (v : String)
  | yoloVersion (v : String)
  | epochs (v : ℚ)
  | batchSize (v : ℚ)
  | imgSize (v : ℚ)
  | dataYaml (v : String)
  | trainPath (v : String)
  | valPath (v : String)
  | classNames (v : String)
  | device (v : String)
  | workers (v : ℚ)
  | optimizer (v : String)
  | patience (v : ℚ)
  | lr0 (v : ℚ)
  | cosineLr (v : Bool)
  | augment (v : Bool)
  | degrees (v : ℚ)
  | flipLR (v : ℚ)
  | mosaic (v : ℚ)
deriving DecidableEq, Repr

/-- The field an edit targets. -/
def updField : FieldUpd → FieldName
  | .projectName _ => .projectName
  | .modelName _ => .modelName
  | .yoloVersion _ => .yoloVersion
  | .epochs _ => .epochs
  | .batchSize _ => .batchSize
  | .imgSize _ => .imgSize
  | .dataYaml _ => .dataYaml
  | .trainPath _ => .trainPath
  | .valPath _ => .valPath
  | .classNames _ => .classNames
  | .device _ => .device
  | .workers _ => .workers
  | .optimizer _ => .optimizer
  | .patience _ => .patience
  | .lr0 _ => .lr0
  | .cosineLr _ => .cosineLr
  | .augment _ => .augment
  | .degrees _ => .degrees
  | .flipLR _ => .flipLR
  | .mosaic _ => .mosaic

/-- Applying one edit to the form data (`setFormData` in
`handleChange`). -/
def applyUpd : FieldUpd → FormData → FormData
  | .projectName v, fd => { fd with projectName := v }
  | .modelName v, fd => { fd with modelName := v }
  | .yoloVersion v, fd => { fd with yoloVersion := v }
  | .epochs v, fd => { fd with epochs := v }
  | .batchSize v, fd => { fd with batchSize := v }
  | .imgSize v, fd => { fd with imgSize := v }
  | .dataYaml v, fd => { fd with dataYaml := v }
  | .trainPath v, fd => { fd with trainPath := v }
  | .valPath v, fd => { fd with valPath := v }
  | .classNames v, fd => { fd with classNames := v }
  | .device v, fd => { fd with device := v }
  | .workers v, fd => { fd with workers := v }
  | .optimizer v, fd => { fd with optimizer := v }
  | .patience v, fd => { fd with patience := v }
  | .lr0 v, fd => { fd with lr0 := v }
  | .cosineLr v, fd => { fd with cosineLr := v }
  | .augment v, fd => { fd with augment := v }
  | .degrees v, fd => { fd with degrees := v }
  | .flipLR v, fd => { fd with flipLR := v }
  | .mosaic v, fd => { fd with mosaic := v }

/-- Which fields are rendered (and hence editable) at each step of the
multi-step form: step 1 the basic settings, step 2 the training
parameters, step 3 the dataset fields, step 4 the advanced options
(the augmentation fields only while `augment` is checked). -/
def renderedAt (step : ℕ) (fd : FormData) (f : FieldName) : Bool :=
  if step = 1 then
    decide (f = FieldName.projectName ∨ f = FieldName.modelName ∨ f = FieldName.yoloVersion)
  else if step = 2 then
    decide (f = FieldName.epochs ∨ f = FieldName.batchSize ∨ f = FieldName.imgSize ∨
      f = FieldName.device ∨ f = FieldName.workers)
  else if step = 3 then
    decide (f = FieldName.dataYaml ∨ f = FieldName.trainPath ∨ f = FieldName.valPath ∨
      f = FieldName.classNames)
  else if step = 4 then
    decide (f = FieldName.optimizer ∨ f = FieldName.patience ∨ f = FieldName.lr0 ∨
      f = FieldName.cosineLr ∨ f = FieldName.augment) ||
    (fd.augment && decide (f = FieldName.degrees ∨ f = FieldName.flipLR ∨ f = FieldName.mosaic))
  else false

/-- Embeds `String.prototype.trim`: strip whitespace from both ends
(embedded structurally so that it evaluates on literals). -/
def strTrim (s : String) : String :=
  String.mk (((s.data.dropWhile Char.isWhitespace).reverse.dropWhile
    Char.isWhitespace).reverse)

/-- Embeds `parseInt` applied to the string of a numeric input value:
truncation of the rational toward zero. -/
def jsParseInt (q : ℚ) : ℤ := if q < 0 then ⌈q⌉ else ⌊q⌋

/-- Embeds `validateStep` from `TrainingForm.jsx` (lines 56-91), returning
the list of fields recorded in `newErrors`: step 1 requires non-blank
project and model names; step 2 requires `epochs` in `[1, 1000]`,
`batch_size` in `[1, 128]`, and `parseInt(img_size)` one of
320, 416, 512, 640, 800, 1024; step 3 requires non-blank
`data_yaml` and `class_names`; step 4 checks nothing. -/
def stepErrors (step : ℕ) (fd : FormData) : List FieldName :=
  (if step = 1 then
    (if strTrim fd.projectName = "" then [FieldName.projectName] else []) ++
    (if strTrim fd.modelName = "" then [FieldName.modelName] else [])
  else []) ++
  (if step = 2 then
    (if fd.epochs < 1 ∨ 1000 < fd.epochs then [FieldName.epochs] else []) ++
    (if fd.batchSize < 1 ∨ 128 < fd.batchSize then [FieldName.batchSize] else []) ++
    (if jsParseInt fd.imgSize ∈ ([320, 416, 512, 640, 800, 1024] : List ℤ) then []
     else [FieldName.imgSize])
  else []) ++
  (if step = 3 then
    (if strTrim fd.dataYaml = "" then [FieldName.dataYaml] else []) ++
    (if strTrim fd.classNames = "" then [FieldName.classNames] else [])
  else [])

/-- The component state of `TrainingForm`: the current step, the form
data, and the recorded validation errors. -/
structure FormState where
  step : ℕ
  data : FormData
  errors : List FieldName
deriving DecidableEq, Repr

/-- The initial component state: step 1, default values, no errors. -/
def initFormState : FormState := { step := 1, data := initFormData, errors := [] }

/-- The payload `handleSubmit` builds (lines 103-123): the form data
with `epochs`, `batch_size`, `img_size`, `workers` and `patience`
passed through `parseInt` and `lr0`, `degrees`, `flipLR`, `mosaic`
through `parseFloat` (the identity on a numeric value). -/
structure Payload where
  projectName : String
  modelName : String
  yoloVersion : String
  dataYaml : String
  trainPath : String
  valPath : String
  classNames : String
  device : String
  optimizer : String
  epochs : ℤ
  batchSize : ℤ
  imgSize : ℤ
  workers : ℤ
  patience : ℤ
  lr0 : ℚ
  degrees : ℚ
  flipLR : ℚ
  mosaic : ℚ
  cosineLr : Bool
  augment : Bool
deriving DecidableEq, Repr

/-- Embeds `processedData` of `handleSubmit`. -/
def processForm (fd : FormData) : Payload :=
  { projectName := fd.projectName
    modelName := fd.modelName
    yoloVersion := fd.yoloVersion
    dataYaml := fd.dataYaml
    trainPath := fd.trainPath
    valPath := fd.valPath
    classNames := fd.classNames
    device := fd.device
    optimizer := fd.optimizer
    epochs := jsParseInt fd.epochs
    batchSize := jsParseInt fd.batchSize
    imgSize := jsParseInt fd.imgSize
    workers := jsParseInt fd.workers
    patience := jsParseInt fd.patience
    lr0 := fd.lr0
    degrees := fd.degrees
    flipLR := fd.flipLR
    mosaic := fd.mosaic
    cosineLr := fd.cosineLr
    augment := fd.augment }

/-- The transition relation of the `TrainingForm` component.  The
output component is `some payload` exactly when `onSubmit` is invoked.

* `change`: `handleChange` on a field rendered at the current step
  (fields of other steps are not in the DOM), clearing the recorded error of that field;
* `next` / `nextFail`: `handleNext`: validates the current step,
  advancing (capped at step 4) and storing the empty error object on
  success, or storing the errors and staying on failure;
* `prev`: `handlePrev`, floor at step 1, no validation;
* `submitForm` / `submitFormFail`: `handleSubmit`, reachable only at
  step 4 where the submit button is rendered (at steps 1-3 the form
  has no submit button and several implicit-submission-blocking
  fields, so implicit submission does nothing): validates the current
  step and invokes `onSubmit` with the processed payload on success. -/
inductive FStep : FormState → Option Payload → FormState → Prop where
  | change {st : FormState} (u : FieldUpd)
      (h : renderedAt st.step st.data (updField u) = true) :
      FStep st none
        { st with data := applyUpd u st.data
                  errors := st.errors.filter (fun f => decide (f ≠ updField u)) }
  | next {st : FormState} (h : stepErrors st.step st.data = []) :
      FStep st none { st with step := min (st.step + 1) 4, errors := [] }
  | nextFail {st : FormState} (h : stepErrors st.step st.data ≠ []) :
      FStep st none { st with errors := stepErrors st.step st.data }
  | prev {st : FormState} :
      FStep st none { st with step := max (st.step - 1) 1 }
  | submitForm {st : FormState} (h4 : st.step = 4)
      (h : stepErrors st.step st.data = []) :
      FStep st (some (processForm st.data)) { st with errors := [] }
  | submitFormFail {st : FormState} (h4 : st.step = 4)
      (h : stepErrors st.step st.data ≠ []) :
      FStep st none { st with errors := stepErrors st.step st.data }

/-- One anonymous form transition. -/
def FStepAny (a b : FormState) : Prop := ∃ o, FStep a o b

/-- Component states reachable from the initial render. -/
def FormReachable (st : FormState) : Prop :=
  Relation.ReflTransGen FStepAny initFormState st

/-! ## C9: validation of the training parameters -/

theorem renderedAt_numeric {step : ℕ} {fd : FormData} {f : FieldName}
    (hf : f = FieldName.epochs ∨ f = FieldName.batchSize ∨ f = FieldName.imgSize)
    (h : renderedAt step fd f = true) : step = 2 := by
  rw [renderedAt] at h
  split_ifs at h with e1 e2 e3 e4
  · rcases hf with rfl | rfl | rfl <;> simp at h
  · exact e2
  · rcases hf with rfl | rfl | rfl <;> simp at h
  · rcases hf with rfl | rfl | rfl <;> simp at h

theorem mem_stepErrors_two_epochs {fd : FormData}
    (hv : fd.epochs < 1 ∨ 1000 < fd.epochs) :
    FieldName.epochs ∈ stepErrors 2 fd := by
  unfold stepErrors
  rw [if_neg (show ¬((2:ℕ) = 1) by norm_num), if_pos (rfl : (2:ℕ) = 2),
    if_neg (show ¬((2:ℕ) = 3) by norm_num), if_pos hv]
  simp

theorem mem_stepErrors_two_batch {fd : FormData}
    (hv : fd.batchSize < 1 ∨ 128 < fd.batchSize) :
    FieldName.batchSize ∈ stepErrors 2 fd := by
  unfold stepErrors
  rw [if_neg (show ¬((2:ℕ) = 1) by norm_num), if_pos (rfl : (2:ℕ) = 2),
    if_neg (show ¬((2:ℕ) = 3) by norm_num), if_pos hv]
  simp

theorem mem_stepErrors_two_img {fd : FormData}
    (hv : ¬ jsParseInt fd.imgSize ∈ ([320, 416, 512, 640, 800, 1024] : List ℤ)) :
    FieldName.imgSize ∈ stepErrors 2 fd := by
  unfold stepErrors
  rw [if_neg (show ¬((2:ℕ) = 1) by norm_num), if_pos (rfl : (2:ℕ) = 2),
    if_neg (show ¬((2:ℕ) = 3) by norm_num), if_neg hv]
  simp

/-- An empty error list for step 2 forces the training-parameter
bounds. -/
theorem stepErrors_two_nil {fd : FormData} (h : stepErrors 2 fd = []) :
    1 ≤ fd.epochs ∧ fd.epochs ≤ 1000 ∧ 1 ≤ fd.batchSize ∧ fd.batchSize ≤ 128 ∧
    jsParseInt fd.imgSize ∈ ([320, 416, 512, 640, 800, 1024] : List ℤ) := by
  have ha : ¬ (fd.epochs < 1 ∨ 1000 < fd.epochs) := by
    intro hv
    have hm := mem_stepErrors_two_epochs hv
    rw [h] at hm
    simp at hm
  have hb : ¬ (fd.batchSize < 1 ∨ 128 < fd.batchSize) := by
    intro hv
    have hm := mem_stepErrors_two_batch hv
    rw [h] at hm
    simp at hm
  have hc : jsParseInt fd.imgSize ∈ ([320, 416, 512, 640, 800, 1024] : List ℤ) := by
    by_contra hv
    have hm := mem_stepErrors_two_img hv
    rw [h] at hm
    simp at hm
  push_neg at ha hb
  exact ⟨ha.1, ha.2, hb.1, hb.2, hc⟩

/-- The reachability invariant of the form: at step 3 or beyond, the
training parameters of step 2 have passed validation (they were
validated when step 2 was left forward, and they are only editable at
step 2). -/
def FInv (st : FormState) : Prop := 3 ≤ st.step → stepErrors 2 st.data = []

theorem finv_step {a b : FormState} {o : Option Payload}
    (ha : FInv a) (h : FStep a o b) : FInv b := by
  cases h with
  | change u hren =>
    intro h3
    have h3' : 3 ≤ a.step := h3
    have h2 := ha h3'
    cases u <;>
      first
        | exact h2
        | exact absurd (renderedAt_numeric (Or.inl rfl) hren) (by omega)
        | exact absurd (renderedAt_numeric (Or.inr (Or.inl rfl)) hren) (by omega)
        | exact absurd (renderedAt_numeric (Or.inr (Or.inr rfl)) hren) (by omega)
  | next h =>
    intro h3
    have h3' : 3 ≤ min (a.step + 1) 4 := h3
    have hge : 2 ≤ a.step := by
      have := le_min_iff.mp h3'
      omega
    rcases Nat.lt_or_ge a.step 3 with hlt | hge3
    · have hs2 : a.step = 2 := by omega
      rw [hs2] at h
      exact h
    · exact ha hge3
  | nextFail h => exact ha
  | prev =>
    intro h3
    have h3' : 3 ≤ max (a.step - 1) 1 := h3
    rcases le_max_iff.mp h3' with hx | hx
    · exact ha (by omega)
    · omega
  | submitForm h4 h => exact ha
  | submitFormFail h4 h => exact ha

theorem finv_reachable {st : FormState} (h : FormReachable st) : FInv st := by
  induction h with
  | refl =>
    intro h3
    have : (3 : ℕ) ≤ 1 := h3
    omega
  | tail hsteps hstep ih =>
    obtain ⟨o, ho⟩ := hstep
    exact finv_step ih ho

/-- C9 (amended).  In every reachable state of the form: (1) advancing
from the training-parameters step (step 2) to step 3 is possible only
when the numeric value of epochs lies in `[1, 1000]`, the numeric
value of batch_size lies in `[1, 128]`, and `parseInt(img_size)` is
one of 320, 416, 512, 640, 800, 1024; (2) when validation of step 2
fails, no transition advances to step 3, and each violated training
parameter has its error recorded by `validateStep`; (3) whenever
`onSubmit` is invoked, its payload is the processed form data, those
bounds hold, and epochs, batch_size, img_size, workers and patience
are the `parseInt` truncations of the form values while lr0, degrees,
flipLR and mosaic are passed through as floats. -/
theorem C9_form_validation (st : FormState) (h : FormReachable st) :
    (st.step = 2 → ∀ st', FStep st none st' → st'.step = 3 →
      1 ≤ st.data.epochs ∧ st.data.epochs ≤ 1000 ∧
      1 ≤ st.data.batchSize ∧ st.data.batchSize ≤ 128 ∧
      jsParseInt st.data.imgSize ∈ ([320, 416, 512, 640, 800, 1024] : List ℤ))
    ∧ (st.step = 2 → stepErrors 2 st.data ≠ [] →
        ∀ (o : Option Payload) st', FStep st o st' → st'.step ≠ 3)
    ∧ (st.data.epochs < 1 ∨ 1000 < st.data.epochs →
        FieldName.epochs ∈ stepErrors 2 st.data)
    ∧ (st.data.batchSize < 1 ∨ 128 < st.data.batchSize →
        FieldName.batchSize ∈ stepErrors 2 st.data)
    ∧ (¬ jsParseInt st.data.imgSize ∈ ([320, 416, 512, 640, 800, 1024] : List ℤ) →
        FieldName.imgSize ∈ stepErrors 2 st.data)
    ∧ (∀ (p : Payload) st', FStep st (some p) st' →
        p = processForm st.data
        ∧ 1 ≤ st.data.epochs ∧ st.data.epochs ≤ 1000
        ∧ 1 ≤ st.data.batchSize ∧ st.data.batchSize ≤ 128
        ∧ jsParseInt st.data.imgSize ∈ ([320, 416, 512, 640, 800, 1024] : List ℤ)
        ∧ p.epochs = jsParseInt st.data.epochs
        ∧ p.batchSize = jsParseInt st.data.batchSize
        ∧ p.imgSize = jsParseInt st.data.imgSize
        ∧ p.workers = jsParseInt st.data.workers
        ∧ p.patience = jsParseInt st.data.patience
        ∧ p.lr0 = st.data.lr0 ∧ p.degrees = st.data.degrees
        ∧ p.flipLR = st.data.flipLR ∧ p.mosaic = st.data.mosaic) := by
  refine ⟨?_, ?_, mem_stepErrors_two_epochs, mem_stepErrors_two_batch,
    mem_stepErrors_two_img, ?_⟩
  · intro h2 st' hstep h3
    cases hstep with
    | change u hren =>
      have h3' : st.step = 3 := h3
      omega
    | next hok =>
      rw [h2] at hok
      exact stepErrors_two_nil hok
    | nextFail hbad =>
      have h3' : st.step = 3 := h3
      omega
    | prev =>
      have h3' : max (st.step - 1) 1 = 3 := h3
      rw [h2] at h3'
      omega
    | submitFormFail h4 hbad =>
      omega
  · intro h2 hbad o st' hstep h3
    cases hstep with
    | change u hren =>
      have h3' : st.step = 3 := h3
      omega
    | next hok =>
      rw [h2] at hok
      exact hbad hok
    | nextFail hx =>
      have h3' : st.step = 3 := h3
      omega
    | prev =>
      have h3' : max (st.step - 1) 1 = 3 := h3
      rw [h2] at h3'
      omega
    | submitForm h4 hok =>
      have h3' : st.step = 3 := h3
      omega
    | submitFormFail h4 hx =>
      have h3' : st.step = 3 := h3
      omega
  · intro p st' hstep
    cases hstep with
    | submitForm h4 hok =>
      have h3 : 3 ≤ st.step := by omega
      obtain ⟨e1, e2, b1, b2, iM⟩ := stepErrors_two_nil (finv_reachable h h3)
      exact ⟨rfl, e1, e2, b1, b2, iM, rfl, rfl, rfl, rfl, rfl, rfl, rfl, rfl, rfl⟩

/-- A form-data record in which the user typed the decimal values 1.5
into epochs, 2.5 into batch size and 640.5 into image size. -/
def c9Data : FormData :=
  { initFormData with epochs := 3 / 2, batchSize := 5 / 2, imgSize := 1281 / 2 }

/-- The form sitting on the training-parameters step with those
values. -/
def c9State : FormState := { step := 2, data := c9Data, errors := [] }

/-- The state after `handleNext` accepts those values. -/
def c9Next : FormState := { step := 3, data := c9Data, errors := [] }

theorem jsParseInt_c9img : jsParseInt ((1281 : ℚ) / 2) = 640 := by
  rw [jsParseInt, if_neg (by norm_num), Int.floor_eq_iff]
  constructor <;> norm_num

theorem c9_stepErrors : stepErrors 2 c9Data = [] := by
  have himg : jsParseInt c9Data.imgSize = 640 := by
    have hx : c9Data.imgSize = (1281 : ℚ) / 2 := rfl
    rw [hx, jsParseInt_c9img]
  have hep : ¬ (c9Data.epochs < 1 ∨ 1000 < c9Data.epochs) := by
    have hx : c9Data.epochs = (3 : ℚ) / 2 := rfl
    rw [hx]
    norm_num
  have hba : ¬ (c9Data.batchSize < 1 ∨ 128 < c9Data.batchSize) := by
    have hx : c9Data.batchSize = (5 : ℚ) / 2 := rfl
    rw [hx]
    norm_num
  unfold stepErrors
  rw [if_neg (show ¬((2:ℕ) = 1) by norm_num), if_pos (rfl : (2:ℕ) = 2),
    if_neg (show ¬((2:ℕ) = 3) by norm_num), if_neg hep, if_neg hba,
    if_pos (by rw [himg]; decide)]
  rfl

theorem c9_reachable : FormReachable c9State := by
  have s1 : FStepAny initFormState ⟨2, initFormData, []⟩ :=
    ⟨none, FStep.next (by decide)⟩
  have s2 : FStepAny ⟨2, initFormData, []⟩
      ⟨2, { initFormData with epochs := 3 / 2 }, []⟩ :=
    ⟨none, FStep.change (.epochs (3 / 2)) (by decide)⟩
  have s3 : FStepAny ⟨2, { initFormData with epochs := 3 / 2 }, []⟩
      ⟨2, { initFormData with epochs := 3 / 2, batchSize := 5 / 2 }, []⟩ :=
    ⟨none, FStep.change (.batchSize (5 / 2)) (by decide)⟩
  have s4 : FStepAny ⟨2, { initFormData with epochs := 3 / 2, batchSize := 5 / 2 }, []⟩
      c9State :=
    ⟨none, FStep.change (.imgSize (1281 / 2)) (by decide)⟩
  exact Relation.ReflTransGen.tail
    (Relation.ReflTransGen.tail
      (Relation.ReflTransGen.tail (Relation.ReflTransGen.single s1) s2) s3) s4

/-- C9 (counterexample to the claim as stated).  A reachable form
state on the training-parameters step whose epochs value 1.5 is not an
integer, whose batch-size value 2.5 is not an integer, and whose
image-size value 640.5 is not one of 320, 416, 512, 640, 800, 1024,
nevertheless advances past the step: `validateStep` records no error
and `handleNext` moves to step 3 (it is the coerced numeric ranges and
the `parseInt` image of img_size that are validated, not integrality
or literal set membership of the entered values). -/
theorem C9_counterexample :
    FormReachable c9State
    ∧ c9State.step = 2
    ∧ FStep c9State none c9Next
    ∧ c9Next.step = 3
    ∧ ¬ (∃ k : ℤ, c9State.data.epochs = (k : ℚ))
    ∧ ¬ (∃ k : ℤ, c9State.data.batchSize = (k : ℚ))
    ∧ ¬ (c9State.data.imgSize ∈ ([320, 416, 512, 640, 800, 1024] : List ℚ)) := by
  refine ⟨c9_reachable, rfl, FStep.next c9_stepErrors, rfl, ?_, ?_, ?_⟩
  · rintro ⟨k, hk⟩
    have he : c9State.data.epochs = (3 : ℚ) / 2 := rfl
    rw [he] at hk
    have hk' : (3 : ℚ) = k * 2 := by
      rw [div_eq_iff (by norm_num : (2:ℚ) ≠ 0)] at hk
      exact hk
    have hz : (3 : ℤ) = k * 2 := by exact_mod_cast hk'
    omega
  · rintro ⟨k, hk⟩
    have he : c9State.data.batchSize = (5 : ℚ) / 2 := rfl
    rw [he] at hk
    have hk' : (5 : ℚ) = k * 2 := by
      rw [div_eq_iff (by norm_num : (2:ℚ) ≠ 0)] at hk
      exact hk
    have hz : (5 : ℤ) = k * 2 := by exact_mod_cast hk'
    omega
  · intro hmem
    have : c9State.data.imgSize = (1281 : ℚ) / 2 := rfl
    rw [this] at hmem
    simp only [List.mem_cons, List.not_mem_nil, or_false] at hmem
    rcases hmem with h | h | h | h | h | h <;> norm_num at h

/-- Witness for the amended C9 theorem: at the default values the
training-parameter bounds hold once step 2 has been passed. -/
theorem C9_form_validation_witness :
    1 ≤ initFormData.epochs ∧ initFormData.epochs ≤ 1000 ∧
    1 ≤ initFormData.batchSize ∧ initFormData.batchSize ≤ 128 ∧
    jsParseInt initFormData.imgSize ∈ ([320, 416, 512, 640, 800, 1024] : List ℤ) := by
  have hreach : FormReachable ⟨2, initFormData, []⟩ :=
    Relation.ReflTransGen.single ⟨none, FStep.next (by decide)⟩
  exact (C9_form_validation ⟨2, initFormData, []⟩ hreach).1 rfl
    ⟨3, initFormData, []⟩ (FStep.next (by decide)) rfl

/-! ## Concrete witnesses for the subsystem theorems -/

/-- Witness for C1: the submission step from the empty store moves the
status along the machine (`none` to `Pending`) and the terminal-freeze
guarantee holds vacuously. -/
theorem C1_witness :
    statusStepOKB (jobStatus (initSys 1))
        (jobStatus (⟨some (initRecord 3 0), 1, [WorkerState.idle], 0, 0⟩ : Sys)) = true
    ∧ (∀ r, (initSys 1).record = some r → r.status.isTerminal = true →
        (⟨some (initRecord 3 0), 1, [WorkerState.idle], 0, 0⟩ : Sys).record = some r) :=
  C1_status_machine (n := 1) Relation.ReflTransGen.refl (Step.submit 3 rfl)

/-- The record of the C2 witness scenario after worker 0 wins the
claim. -/
def c2Running : JobRecord :=
  { initRecord 3 0 with status := JobStatus.running, lastUpdate := 0 }

/-- Witness for C2: after two workers hold deliveries of the same
`Pending` Job and worker 0 claims it, the record is `Running` and
worker 1 can no longer claim. -/
theorem C2_witness :
    (∃ r₁, (⟨some c2Running, 0, [WorkerState.executing 0, WorkerState.holding], 1, 0⟩
        : Sys).record = some r₁ ∧ r₁.status = JobStatus.running)
    ∧ ¬ ∃ s₂, Step (⟨some c2Running, 0, [WorkerState.executing 0, WorkerState.holding], 1, 0⟩
        : Sys) (Ev.claimOk 1) s₂ := by
  have hreach : Reachable 2 (⟨some (initRecord 3 0), 0,
      [WorkerState.holding, WorkerState.holding], 0, 0⟩ : Sys) :=
    Relation.ReflTransGen.tail (Relation.ReflTransGen.tail (Relation.ReflTransGen.tail
      (Relation.ReflTransGen.single ⟨_, Step.submit 3 rfl⟩) ⟨_, Step.redeliver (by simp)⟩)
      ⟨_, Step.dequeue (w := 0) rfl rfl⟩) ⟨_, Step.dequeue (w := 1) rfl rfl⟩
  have happ := C2_atomic_claim (n := 2) 0 1 hreach rfl rfl rfl (by decide)
    (Step.claimOk (w := 0) rfl rfl rfl)
  exact ⟨happ.1, happ.2.1⟩

/-- Witness for C3: the freshly created record carries the clamped
derived percentage (namely 0 of 3 epochs), and the epoch percentages
of the three-epoch scenario evaluate to 100/3, 200/3 and 100. -/
theorem C3_witness :
    ((initRecord 3 0).progress = pct (initRecord 3 0).currentEpoch (initRecord 3 0).totalEpochs
      ∧ 0 ≤ (initRecord 3 0).progress ∧ (initRecord 3 0).progress ≤ 100
      ∧ (∀ (e : Ev) (s' : Sys) (r' : JobRecord),
          Step (⟨some (initRecord 3 0), 1, [WorkerState.idle], 0, 0⟩ : Sys) e s' →
          s'.record = some r' → (initRecord 3 0).progress ≤ r'.progress))
    ∧ pct 1 3 = 100 / 3 ∧ pct 2 3 = 200 / 3 ∧ pct 3 3 = 100 := by
  refine ⟨C3_progress (n := 1)
    (Relation.ReflTransGen.single ⟨_, Step.submit 3 rfl⟩) rfl, ?_, ?_, ?_⟩
  · rw [pct]
    norm_num
  · rw [pct]
    norm_num
  · rw [pct]
    norm_num

/-- Witness for C4: a valid submission is accepted as `Pending` and
enqueued; an out-of-range epoch count is rejected with no record; an
unavailable queue yields a failed-to-schedule record. -/
theorem C4_submit_witness :
    ((submit ⟨100, "dataset.yaml"⟩ 7 true 0).enqueued = true
      ∧ (submit ⟨100, "dataset.yaml"⟩ 7 true 0).outcome =
          SubmitOutcome.accepted 7 JobStatus.pending)
    ∧ (submit ⟨2000, "dataset.yaml"⟩ 8 true 0).created = none
    ∧ (∃ r, (submit ⟨100, "dataset.yaml"⟩ 9 false 0).created = some r
        ∧ r.status = JobStatus.failed
        ∧ r.errorMessage = some ("failed to schedule")) := by
  refine ⟨?_, ?_, ?_⟩
  · have h := (C4_submit ⟨100, "dataset.yaml"⟩ 7 true 0).2.1 (by decide) rfl
    exact ⟨h.2.2.1, h.2.2.2⟩
  · exact ((C4_submit ⟨2000, "dataset.yaml"⟩ 8 true 0).1 (by decide)).1
  · obtain ⟨⟨r, hr, hst, herr⟩, -⟩ :=
      (C4_submit ⟨100, "dataset.yaml"⟩ 9 false 0).2.2.1 (by decide) rfl
    exact ⟨r, hr, hst, herr⟩

/-- A completed record used by the C5 witness. -/
def c5Done : JobRecord := { initRecord 3 0 with status := JobStatus.completed }

/-- Witness for C5: an unknown identifier yields `NotFound`; a
`Completed` record is returned unchanged; a `Pending` record gets its
cancellation flag set. -/
theorem C5_cancel_witness :
    cancelJob none = (CancelOutcome.notFound, none)
    ∧ cancelJob (some c5Done) = (CancelOutcome.ok c5Done, some c5Done)
    ∧ (∃ r', cancelJob (some (initRecord 3 0)) = (CancelOutcome.ok r', some r')
        ∧ r'.cancelRequested = true) :=
  ⟨(C5_cancel none).1 rfl, (C5_cancel _).2.1 _ rfl rfl, (C5_cancel _).2.2 _ rfl rfl⟩

/-- The record of the C6 witness scenario after the Pending Job is
cancelled. -/
def c6Stopped : JobRecord :=
  { initRecord 3 0 with status := JobStatus.stopped, cancelRequested := true }

/-- Witness for C6: cancelling the freshly submitted (still `Pending`)
Job stops it immediately, the training routine was never invoked, the
status was never `Running`, and it stays that way. -/
theorem C6_witness :
    jobStatus (⟨some c6Stopped, 1, [WorkerState.idle], 0, 0⟩ : Sys) = some JobStatus.stopped
    ∧ (⟨some c6Stopped, 1, [WorkerState.idle], 0, 0⟩ : Sys).trainCalls = 0
    ∧ (∀ t, Reaches (initSys 1) t →
        Reaches t (⟨some (initRecord 3 0), 1, [WorkerState.idle], 0, 0⟩ : Sys) →
        jobStatus t ≠ some JobStatus.running)
    ∧ (∀ u, Reaches (⟨some c6Stopped, 1, [WorkerState.idle], 0, 0⟩ : Sys) u →
        jobStatus u = some JobStatus.stopped ∧ u.trainCalls = 0) :=
  C6_cancel_pending (n := 1)
    (Relation.ReflTransGen.single ⟨_, Step.submit 3 rfl⟩) rfl rfl Step.cancel

/-- The record of the C7 witness scenario after the claim. -/
def c7Running : JobRecord :=
  { initRecord 3 0 with status := JobStatus.running, lastUpdate := 0 }

/-- Witness for C7: after submit, dequeue, claim and a worker crash,
the concrete stuck state stays `Running` in every later reachable
state. -/
theorem C7_stuck_running_witness :
    jobStatus (⟨some c7Running, 0, [WorkerState.idle], 1, 0⟩ : Sys) = some JobStatus.running
    ∧ (∀ u, Reaches (⟨some c7Running, 0, [WorkerState.idle], 1, 0⟩ : Sys) u →
        jobStatus u = some JobStatus.running) := by
  have hreach : Reachable 1 (⟨some c7Running, 0, [WorkerState.idle], 1, 0⟩ : Sys) :=
    Relation.ReflTransGen.tail (Relation.ReflTransGen.tail (Relation.ReflTransGen.tail
      (Relation.ReflTransGen.single ⟨_, Step.submit 3 rfl⟩)
      ⟨_, Step.dequeue (w := 0) rfl rfl⟩)
      ⟨_, Step.claimOk (w := 0) rfl rfl rfl⟩) ⟨_, Step.crash (w := 0) rfl⟩
  have hmain := C7_stuck_running hreach rfl (by
    intro w e hx
    cases w with
    | zero => exact WorkerState.noConfusion (Option.some.inj hx)
    | succ n => exact Option.noConfusion hx)
  exact ⟨hmain _ Relation.ReflTransGen.refl, hmain⟩

/-- The terminal record of the C8 witness scenario. -/
def c8Rec : JobRecord :=
  { initRecord 3 0 with status := JobStatus.completed, modelPath := some ("best.weights") }

/-- Witness for C8: an observer of a Job that is already `Completed`
at time 0 receives the terminal snapshot at its first poll and nothing
afterwards. -/
theorem C8_notifier_witness :
    (∃ t, 0 ≤ t ∧ t ≤ max 0 0 ∧
      (∃ r, delivered (fun _ => c8Rec) 0 t = some r ∧ r.status.isTerminal = true) ∧
      ∀ u, t < u → delivered (fun _ => c8Rec) 0 u = none)
    ∧ (0 ≤ 0 → delivered (fun _ => c8Rec) 0 0 = some c8Rec ∧
        ∀ u, 0 < u → delivered (fun _ => c8Rec) 0 u = none) :=
  C8_notifier (fun _ => c8Rec) 0 0 (fun t ht => rfl) rfl

end JobOrch
